import Mathlib

/-!
Verification of the housing-dashboard ingestion pipeline
(`data_engine/fetch_reddit.py`, `fetch_trends.py`, `fetch_fred.py`,
`preprocess_reddit.py`, `preprocess_trends.py`, `preprocess_zillow.py`).

Shallow embedding conventions:
* Unix timestamps and dates are `Nat` / `Int` (dates as day numbers since
  1970-01-01, which was a Thursday, so a day `d : Int` is a Sunday iff
  `d % 7 = 3`).
* Python floats are modelled as `ℚ` (all arithmetic in the claims is exact).
* JSON fields that may be absent are `Option`.
* Python's stable `list.sort` / pandas `sort_values` are modelled by the
  stable `List.insertionSort`.
* Text is handled as `List Char`; regular expressions from the source are
  compiled by hand into deterministic matchers (each of the concrete
  patterns in the source admits no successful backtracking, so a greedy
  left-to-right scan is exactly Python `re.search` semantics; `\d`, `\s`
  and `\w` are taken at their ASCII meaning, the pipeline having stripped
  text to ASCII upstream).
-/

namespace RedditFetch

/-- A raw Reddit submission as stored in `<subreddit>_posts.json`.
`id` is `none` when the JSON object has no `id` key (`post.get('id')`);
`body` stands for the rest of the record, which `save_posts` treats
opaquely. -/
structure RawPost where
  id : Option String
  created_utc : Nat
  body : String
deriving DecidableEq, Repr

/-- Ordering used by `unique_posts.sort(key=lambda x: x.get('created_utc', 0))`. -/
def tsLE (a b : RawPost) : Prop := a.created_utc ≤ b.created_utc

instance : DecidableRel tsLE := fun a b => Nat.decLe a.created_utc b.created_utc

instance : IsTotal RawPost tsLE := ⟨fun a b => Nat.le_total a.created_utc b.created_utc⟩

instance : IsTrans RawPost tsLE := ⟨fun _ _ _ h h' => Nat.le_trans h h'⟩

/-- The dedup loop of `save_posts`: walk `all_posts`, keep a post iff its id
is truthy (`post_id and ...`, i.e. present and nonempty) and not yet in
`seen_ids`. -/
def dedup_posts : List RawPost → List String → List RawPost
  | [], _ => []
  | p :: rest, seen =>
    match p.id with
    | some pid =>
      if pid ≠ "" ∧ pid ∉ seen then p :: dedup_posts rest (pid :: seen)
      else dedup_posts rest seen
    | none => dedup_posts rest seen

/-- The merge-and-sort core of `RedditFetcher.save_posts`
(`fetch_reddit.py` lines 153-164): `all_posts = existing_posts + posts`,
dedup by id first-seen-wins, then stable sort by `created_utc` ascending. -/
def save_posts_merge (existing posts : List RawPost) : List RawPost :=
  (dedup_posts (existing ++ posts) []).insertionSort tsLE

/-- `max([p.get('created_utc', 0) for p in unique_posts])` for a nonempty
list (`save_posts` guards with `if unique_posts else None`). -/
def max_created_utc (l : List RawPost) : Nat :=
  l.foldl (fun m p => max m p.created_utc) 0

/-- Persisted state for one subreddit: the posts file (absent before the
first successful save) and the metadata file's `last_created_utc`
(outer `none` = metadata file absent, inner `none` = JSON null). -/
structure SubredditState where
  posts : Option (List RawPost)
  last_created_utc : Option (Option Nat)
deriving DecidableEq, Repr

/-- `RedditFetcher.get_last_fetch_date`. -/
def get_last_fetch_date (st : SubredditState) : Option Nat :=
  match st.last_created_utc with
  | some w => w
  | none => none

/-- `RedditFetcher.save_posts` as a state transformer (the fetch metadata
blob written alongside is not modelled). -/
def save_posts (st : SubredditState) (posts : List RawPost) : SubredditState :=
  let existing := st.posts.getD []
  let unique := save_posts_merge existing posts
  { posts := some unique
    last_created_utc := some (if unique.isEmpty then none else some (max_created_utc unique)) }

/-- One page served by the PullPush API for
`{'after': a, 'before': b, 'size': limit, 'sort': 'asc'}`: the upstream
posts in the window, oldest first, at most `limit` of them.  The lower
bound is taken inclusive (the code advances with `last_post_time + 1`,
which is lossless exactly under this reading). -/
def query (upstream : List RawPost) (after before limit : Nat) : List RawPost :=
  (((upstream.filter (fun p => after ≤ p.created_utc ∧ p.created_utc < before)).insertionSort
      tsLE).take limit)

/-- The pagination loop of `fetch_subreddit` (lines 242-274).  `fuel` is an
artificial bound on the number of iterations; the real `while` loop always
terminates because each full page strictly advances `current_after`. -/
def fetch_loop (upstream : List RawPost) (before limit : Nat) :
    Nat → Nat → List RawPost → List RawPost
  | 0, _, acc => acc
  | fuel + 1, current_after, acc =>
    if current_after < before then
      let posts := query upstream current_after before limit
      if posts.isEmpty then acc
      else
        let acc' := acc ++ posts
        if posts.length < limit then acc'
        else fetch_loop upstream before limit fuel (max_created_utc posts + 1) acc'
    else acc

/-- The list of posts `fetch_subreddit` accumulates for a given start
boundary. -/
def fetched_posts (upstream : List RawPost) (st : SubredditState)
    (default_after before limit fuel : Nat) : List RawPost :=
  let after :=
    match get_last_fetch_date st with
    | some w => if w = 0 then default_after else w + 1
    | none => default_after
  fetch_loop upstream before limit fuel after []

/-- `RedditFetcher.fetch_subreddit` in incremental mode:
resolve the start boundary from the checkpoint (`last_utc + 1`, with a
default lookback when there is no previous data — `if last_utc:` also
treats a stored `0` as absent), run the pagination loop, and save unless
nothing was fetched (`if not all_posts: return`). -/
def fetch_subreddit (upstream : List RawPost) (st : SubredditState)
    (default_after before limit fuel : Nat) : SubredditState :=
  let allPosts := fetched_posts upstream st default_after before limit fuel
  if allPosts.isEmpty then st else save_posts st allPosts

end RedditFetch

namespace TrendsFetch

/-- One row of a `<term_key>_data.csv` raw file: a calendar date (day
number) and the interest score column.  Further columns do not exist in
the raw per-term file. -/
structure TrendRow where
  date : Int
  interest_score : Int
deriving DecidableEq, Repr

def dateLE (a b : TrendRow) : Prop := a.date ≤ b.date

instance : DecidableRel dateLE := fun a b => Int.decLe a.date b.date

instance : IsTotal TrendRow dateLE := ⟨fun a b => Int.le_total a.date b.date⟩

instance : IsTrans TrendRow dateLE := ⟨fun _ _ _ h h' => Int.le_trans h h'⟩

/-- pandas `drop_duplicates(subset=['date'], keep='last')`: a row is kept
iff no later row carries the same date; kept rows stay in order. -/
def drop_duplicate_dates : List TrendRow → List TrendRow
  | [] => []
  | r :: rest =>
    if rest.any (fun s => s.date = r.date) then drop_duplicate_dates rest
    else r :: drop_duplicate_dates rest

/-- The merge core of `TrendsFetcher.save_term_data`
(`fetch_trends.py` lines 148-151):
`concat([existing_data, data])`, `drop_duplicates(subset=['date'],
keep='last')`, `sort_values('date')`. -/
def save_term_data_merge (existing data : List TrendRow) : List TrendRow :=
  (drop_duplicate_dates (existing ++ data)).insertionSort dateLE

/-- Last row of `l` carrying date `d` (the survivor that
`keep='last'` selects for `d`). -/
def last_with_date (l : List TrendRow) (d : Int) : Option TrendRow :=
  l.reverse.find? (fun r => r.date = d)

end TrendsFetch

namespace FredFetch

/-- One observation of a FRED series; `date` is a day number standing for
the `YYYY-MM-DD` string (string order on such dates is date order), and
`value` is the raw string payload (possibly the sentinel `"."`). -/
structure Obs where
  date : Int
  value : String
deriving DecidableEq, Repr

def dateLE (a b : Obs) : Prop := a.date ≤ b.date

instance : DecidableRel dateLE := fun a b => Int.decLe a.date b.date

instance : IsTotal Obs dateLE := ⟨fun a b => Int.le_total a.date b.date⟩

instance : IsTrans Obs dateLE := ⟨fun _ _ _ h h' => Int.le_trans h h'⟩

/-- The dedup loop of `FREDFetcher.fetch_series` (lines 270-277):
first occurrence of each date wins. -/
def dedup_obs : List Obs → List Int → List Obs
  | [], _ => []
  | o :: rest, seen =>
    if o.date ∈ seen then dedup_obs rest seen
    else o :: dedup_obs rest (o.date :: seen)

/-- The incremental merge of `FREDFetcher.fetch_series`
(lines 269-278): `existing_obs + observations`, dedup by date
first-seen-wins, `sorted(..., key=lambda x: x['date'])`. -/
def fetch_series_merge (existing observations : List Obs) : List Obs :=
  (dedup_obs (existing ++ observations) []).insertionSort dateLE

/-- First row of `l` carrying date `d`. -/
def first_with_date (l : List Obs) (d : Int) : Option Obs :=
  l.find? (fun o => o.date = d)

end FredFetch

namespace RedditFetch

/-- The `seen_ids` set after the dedup loop has walked `l`. -/
def seen_after : List RawPost → List String → List String
  | [], seen => seen
  | p :: rest, seen =>
    match p.id with
    | some pid =>
      if pid ≠ "" ∧ pid ∉ seen then seen_after rest (pid :: seen)
      else seen_after rest seen
    | none => seen_after rest seen
end RedditFetch

namespace RedditPrep

/-- Python `\s` at its ASCII meaning. -/
def pySpace (c : Char) : Bool :=
  c = ' ' ∨ c = '\t' ∨ c = '\n' ∨ c = '\x0b' ∨ c = '\x0c' ∨ c = '\r'

def isUpperAlpha (c : Char) : Bool := 'A' ≤ c ∧ c ≤ 'Z'

def isLowerAlpha (c : Char) : Bool := 'a' ≤ c ∧ c ≤ 'z'

/-- Python `\w` at its ASCII meaning. -/
def isWordChar (c : Char) : Bool := c.isAlpha ∨ c.isDigit ∨ c = '_'

/-- Value of a digit string. -/
def digitsToNat (ds : List Char) : Nat :=
  ds.foldl (fun n c => 10 * n + (c.toNat - 48)) 0

/-- Exact value of `float("<d1>.<d2>")`. -/
def decimalVal (d1 d2 : List Char) : ℚ :=
  (digitsToNat d1 : ℚ) + (digitsToNat d2 : ℚ) / (10 : ℚ) ^ d2.length

/-- Per-character action of `RedditPreprocessor.normalize_text`
(`preprocess_reddit.py` lines 105-128): drop NUL, map smart
quotes/primes, en/em dashes, ellipsis and non-breaking space to ASCII,
drop remaining non-ASCII, drop C0 controls except newline and tab.  The
source applies these as successive whole-string passes; as every
replacement output survives the later passes, the composition acts
character by character. -/
def norm_char (c : Char) : List Char :=
  if c = '\x00' then []
  else if c = '“' ∨ c = '”' ∨ c = '″' then ['"']
  else if c = '‘' ∨ c = '’' ∨ c = '′' then ['\'']
  else if c = '–' then ['-']
  else if c = '—' then ['-', '-']
  else if c = '…' then ['.', '.', '.']
  else if c = ' ' then [' ']
  else if 128 ≤ c.toNat then []
  else if c.toNat < 32 ∧ c ≠ '\n' ∧ c ≠ '\t' then []
  else [c]

/-- `RedditPreprocessor.normalize_text`. -/
def normalize_text (s : String) : String :=
  String.mk (s.data.map norm_char).flatten

/-- The character class `[KkMm]`. -/
def isKM (c : Char) : Bool := c = 'K' ∨ c = 'k' ∨ c = 'M' ∨ c = 'm'

/-- Attempt of the pattern `\$?\s*(\d+(?:\.\d+)?)\s*([KkMm])` at the head
of `l`; returns the captured amount and the suffix character.  All
quantifiers are resolved greedily; for this pattern no backtracking
alternative can ever succeed after the greedy path fails, so the
deterministic reading coincides with Python's matcher. -/
def km_match_at (l : List Char) : Option (ℚ × Char) :=
  let l1 := match l with
    | '$' :: rest => rest
    | _ => l
  let l2 := l1.dropWhile pySpace
  let d1 := l2.takeWhile Char.isDigit
  let l3 := l2.dropWhile Char.isDigit
  if d1.isEmpty then none
  else
    let dd := match l3 with
      | '.' :: rest =>
        let ds := rest.takeWhile Char.isDigit
        if ds.isEmpty then ([], l3) else (ds, rest.dropWhile Char.isDigit)
      | _ => (([] : List Char), l3)
    let l5 := dd.2.dropWhile pySpace
    match l5 with
    | c :: _ => if isKM c then some (decimalVal d1 dd.1, c) else none
    | [] => none

/-- `re.search` for the K/M pattern: leftmost attempt that succeeds. -/
def search_km : List Char → Option (ℚ × Char)
  | [] => none
  | c :: rest =>
    match km_match_at (c :: rest) with
    | some r => some r
    | none => search_km rest

/-- Greedy `(?:,\d{3})+` (zero or more iterations here; the caller
requires at least one): returns the consumed characters and the rest. -/
def comma_groups : List Char → List Char × List Char
  | ',' :: a :: b :: c :: rest =>
    if a.isDigit ∧ b.isDigit ∧ c.isDigit then
      let gr := comma_groups rest
      (',' :: a :: b :: c :: gr.1, gr.2)
    else ([], ',' :: a :: b :: c :: rest)
  | l => ([], l)

/-- First alternative `\d{1,3}(?:,\d{3})+` with the digit count tried
greedily from `n` down to 1 (Python backtracks the same way). -/
def alt_comma_try (l : List Char) : Nat → Option (List Char)
  | 0 => none
  | n + 1 =>
    let pre := l.take (n + 1)
    if pre.length = n + 1 ∧ pre.all Char.isDigit then
      match (comma_groups (l.drop (n + 1))).1 with
      | [] => alt_comma_try l n
      | g :: gs => some (pre ++ g :: gs)
    else alt_comma_try l n

/-- Second alternative `\d{5,}` (greedy). -/
def alt_bare (l : List Char) : Option (List Char) :=
  let ds := l.takeWhile Char.isDigit
  if 5 ≤ ds.length then some ds else none

/-- Attempt of `\$\s*(\d{1,3}(?:,\d{3})+|\d{5,})` at the head of `l`;
returns the captured group. -/
def full_match_at (l : List Char) : Option (List Char) :=
  match l with
  | '$' :: rest =>
    let r := rest.dropWhile pySpace
    match alt_comma_try r 3 with
    | some g => some g
    | none => alt_bare r
  | _ => none

/-- `re.search` for the full-number pattern. -/
def search_full : List Char → Option (List Char)
  | [] => none
  | c :: rest =>
    match full_match_at (c :: rest) with
    | some g => some g
    | none => search_full rest

/-- Multiplier applied to a K/M match (`suffix == 'K'` selects 1 000,
`'M'` 1 000 000). -/
def km_mult (c : Char) : ℚ := if c = 'K' ∨ c = 'k' then 1000 else 1000000

/-- The fallback (full-number) branch of `extract_price`
(`preprocess_reddit.py` lines 169-180): strip commas, accept only within
the sanity range [50 000, 50 000 000]. -/
def extract_price_full (l : List Char) : Option ℚ :=
  match search_full l with
  | some g =>
    let amount : ℚ := digitsToNat (g.filter (fun c => c ≠ ','))
    if 50000 ≤ amount ∧ amount ≤ 50000000 then some amount else none
  | none => none

/-- `RedditPreprocessor.extract_price` (lines 130-180): try the K/M
pattern first (no bounds check on that path), else the full pattern with
the bounds check, else `None`; the empty string is falsy and returns
`None` immediately. -/
def extract_price (text : String) : Option ℚ :=
  if text.isEmpty then none
  else
    match search_km text.data with
    | some (amount, suffix) =>
      if suffix = 'K' ∨ suffix = 'k' then some (amount * 1000)
      else if suffix = 'M' ∨ suffix = 'm' then some (amount * 1000000)
      else extract_price_full text.data
    | none => extract_price_full text.data

end RedditPrep

namespace RedditPrep

/-- Greedy `[A-Z][a-z]+`: one capitalized word; returns (word, rest). -/
def cap_word : List Char → Option (List Char × List Char)
  | c :: rest =>
    if isUpperAlpha c then
      let ls := rest.takeWhile isLowerAlpha
      if ls.isEmpty then none else some (c :: ls, rest.dropWhile isLowerAlpha)
    else none
  | [] => none

/-- Greedy `(?:\s+[A-Z][a-z]+)*`; returns (consumed, rest).  Each
iteration consumes at least two characters, so `fuel = |l|` is enough. -/
def more_words : Nat → List Char → List Char × List Char
  | 0, l => ([], l)
  | fuel + 1, l =>
    let sp := l.takeWhile pySpace
    if sp.isEmpty then ([], l)
    else
      match cap_word (l.dropWhile pySpace) with
      | some (w, rest) =>
        let ws := more_words fuel rest
        (sp ++ w ++ ws.1, ws.2)
      | none => ([], l)

/-- Attempt of `\b([A-Z][a-z]+(?:\s+[A-Z][a-z]+)*),\s*([A-Z]{2})\b` at the
head of `l` (the leading `\b` is checked by the caller); returns
(city group, state group, rest after the match).  As with the price
patterns, no backtracking alternative of this pattern can succeed once
the greedy path fails. -/
def city_state_at (l : List Char) : Option (List Char × List Char × List Char) :=
  match cap_word l with
  | none => none
  | some (w, rest) =>
    let ws := more_words rest.length rest
    match ws.2 with
    | ',' :: rest2 =>
      let rest3 := rest2.dropWhile pySpace
      match rest3 with
      | a :: b :: rest4 =>
        if isUpperAlpha a ∧ isUpperAlpha b ∧ rest4.head?.all (fun c => ¬ isWordChar c) then
          some (w ++ ws.1, [a, b], rest4)
        else none
      | _ => none
    | _ => none

/-- Scan for the first match of the City-ST pattern; `bdryOK` records
whether the previous character allows a `\b` boundary here. -/
def scan_city_state : Bool → List Char → Option (List Char × List Char × List Char)
  | _, [] => none
  | bdryOK, c :: rest =>
    if bdryOK then
      match city_state_at (c :: rest) with
      | some r => some r
      | none => scan_city_state (¬ isWordChar c) rest
    else scan_city_state (¬ isWordChar c) rest

/-- `re.finditer` for the City-ST pattern: successive non-overlapping
matches.  A match consumes at least one character, so `fuel = |l| + 1`
iterations always suffice. -/
def find_all_city_states : Nat → Bool → List Char → List (List Char × List Char)
  | 0, _, _ => []
  | fuel + 1, bdryOK, l =>
    match scan_city_state bdryOK l with
    | some (city, state, rest) => (city, state) :: find_all_city_states fuel false rest
    | none => []

/-- One gazetteer entry as the preprocessor holds it: the lowercased
`city_ascii` dictionary key, the canonical `city_ascii` capitalization as
looked up back in the dataframe, and the `state_id`.  The CSV itself is
not part of the repository; the list stands for `city_to_state.items()`
in dictionary (= file) order. -/
structure CityEntry where
  key : List Char
  canonical : String
  state : String
deriving DecidableEq, Repr

/-- Case-insensitive match of `key` against a prefix of `l`; returns the
rest on success. -/
def ci_prefix_match : List Char → List Char → Option (List Char)
  | [], rest => some rest
  | _ :: _, [] => none
  | k :: ks, c :: cs => if c.toLower = k.toLower then ci_prefix_match ks cs else none

/-- `re.search(r'\b' + re.escape(city) + r'\b', text, re.IGNORECASE)`
as a Boolean: somewhere in `l`, at a word boundary, the key matches and
is followed by a word boundary. -/
def city_in_text (key : List Char) : Bool → List Char → Bool
  | _, [] => false
  | bdryOK, c :: cs =>
    if bdryOK then
      match ci_prefix_match key (c :: cs) with
      | some rest =>
        if rest.head?.all (fun d => ¬ isWordChar d) then true
        else city_in_text key (¬ isWordChar c) cs
      | none => city_in_text key (¬ isWordChar c) cs
    else city_in_text key (¬ isWordChar c) cs

/-- `f"{city}, {state}"`. -/
def format_city_state (city state : String) : String :=
  city ++ ", " ++ state

/-- Gazetteer fallback loop of `extract_location`: first entry (in
dictionary order) whose key occurs in the text, rendered with its
canonical capitalization. -/
def gazetteer_lookup (gaz : List CityEntry) (l : List Char) : Option String :=
  match gaz.find? (fun e => city_in_text e.key true l) with
  | some e => some (format_city_state e.canonical e.state)
  | none => none

/-- `RedditPreprocessor.extract_location` (`preprocess_reddit.py` lines
182-231): first regex match of the City-ST pattern, returned only when
its state code is a known abbreviation — note that an invalid first match
falls through to the gazetteer rather than trying later regex matches —
else gazetteer scan in dictionary order, else `None`. -/
def extract_location (us_states : List String) (gaz : List CityEntry)
    (text : String) : Option String :=
  if text.isEmpty then none
  else
    match scan_city_state true text.data with
    | some (city, state, _) =>
      if String.mk state ∈ us_states then
        some (format_city_state (String.mk city) (String.mk state))
      else gazetteer_lookup gaz text.data
    | none => gazetteer_lookup gaz text.data

/-- Ordering for `sorted(..., key=lambda x: len(x[0]), reverse=True)`:
descending key length, stable on ties. -/
def lenGE (a b : CityEntry) : Prop := b.key.length ≤ a.key.length

instance : DecidableRel lenGE := fun a b => Nat.decLe b.key.length a.key.length

instance : IsTotal CityEntry lenGE := ⟨fun a b => (Nat.le_total b.key.length a.key.length)⟩

instance : IsTrans CityEntry lenGE := ⟨fun _ _ _ h h' => Nat.le_trans h' h⟩

/-- `RedditPreprocessor.extract_city_mentions` (lines 233-286): collect
validated City-ST regex matches in order of occurrence, then scan the
gazetteer sorted by key length descending, appending each first-seen city
(case-insensitive dedup); serialisation order is order of first
appendance. -/
def extract_city_mentions (us_states : List String) (gaz : List CityEntry)
    (text : String) : List String :=
  if text.isEmpty then []
  else
    let pairs := find_all_city_states (text.data.length + 1) true text.data
    let step1 := pairs.foldl
      (fun (acc : List String × List String) p =>
        if String.mk p.2 ∈ us_states then
          let cs := format_city_state (String.mk p.1) (String.mk p.2)
          if cs.toLower ∈ acc.2 then acc else (acc.1 ++ [cs], acc.2 ++ [cs.toLower])
        else acc)
      ([], [])
    let step2 := (gaz.insertionSort lenGE).foldl
      (fun (acc : List String × List String) e =>
        if city_in_text e.key true text.data then
          let cs := format_city_state e.canonical e.state
          if cs.toLower ∈ acc.2 then acc else (acc.1 ++ [cs], acc.2 ++ [cs.toLower])
        else acc)
      step1
    step2.1

/-- A raw post as `process_subreddit` reads it from the JSON file; every
field the preprocessor touches, `Option` where the code supplies a
`.get` default. -/
structure RawJsonPost where
  id : Option String
  created_utc : Nat
  title : Option String
  selftext : Option String
  score : Option Int
  num_comments : Option Int
  author : Option String
  permalink : Option String
deriving DecidableEq, Repr

/-- One row of the processed posts table (the `created_date` column — a
pure reformatting of `created_utc` — is not modelled). -/
structure ProcessedPost where
  post_id : Option String
  subreddit : String
  created_utc : Nat
  title : String
  selftext : String
  score : Int
  num_comments : Int
  author : String
  location : Option String
  purchase_price : Option ℚ
  city_mentions : Option String
  permalink : String
deriving DecidableEq, Repr

/-- `RedditPreprocessor.process_firsttimehomebuyer_post` (lines 288-321). -/
def process_firsttimehomebuyer_post (us_states : List String) (gaz : List CityEntry)
    (post : RawJsonPost) : ProcessedPost :=
  let title := normalize_text (post.title.getD "")
  let selftext := normalize_text (post.selftext.getD "")
  let ftext := title ++ "\n\n" ++ selftext
  { post_id := post.id
    subreddit := "FirstTimeHomeBuyer"
    created_utc := post.created_utc
    title := title
    selftext := selftext
    score := post.score.getD 0
    num_comments := post.num_comments.getD 0
    author := post.author.getD "[deleted]"
    location := extract_location us_states gaz ftext
    purchase_price := extract_price ftext
    city_mentions := none
    permalink := "https://reddit.com" ++ post.permalink.getD "" }

/-- `RedditPreprocessor.process_samegrassbutgreener_post` (lines 323-355). -/
def process_samegrassbutgreener_post (us_states : List String) (gaz : List CityEntry)
    (post : RawJsonPost) : ProcessedPost :=
  let title := normalize_text (post.title.getD "")
  let selftext := normalize_text (post.selftext.getD "")
  let ftext := title ++ "\n\n" ++ selftext
  let mentions := extract_city_mentions us_states gaz ftext
  { post_id := post.id
    subreddit := "SameGrassButGreener"
    created_utc := post.created_utc
    title := title
    selftext := selftext
    score := post.score.getD 0
    num_comments := post.num_comments.getD 0
    author := post.author.getD "[deleted]"
    location := none
    purchase_price := none
    city_mentions := if mentions.isEmpty then none
                     else some (String.intercalate "|" mentions)
    permalink := "https://reddit.com" ++ post.permalink.getD "" }

/-- The per-post loop of `RedditPreprocessor.process_subreddit` (lines
384-399): skip posts whose raw `selftext` is exactly `"[deleted]"` or
`"[removed]"`, then dispatch on the subreddit (anything else contributes
nothing). -/
def process_subreddit (us_states : List String) (gaz : List CityEntry)
    (subreddit : String) : List RawJsonPost → List ProcessedPost
  | [] => []
  | post :: rest =>
    if post.selftext = some "[deleted]" ∨ post.selftext = some "[removed]" then
      process_subreddit us_states gaz subreddit rest
    else if subreddit = "FirstTimeHomeBuyer" then
      process_firsttimehomebuyer_post us_states gaz post ::
        process_subreddit us_states gaz subreddit rest
    else if subreddit = "SameGrassButGreener" then
      process_samegrassbutgreener_post us_states gaz post ::
        process_subreddit us_states gaz subreddit rest
    else process_subreddit us_states gaz subreddit rest

end RedditPrep

namespace TrendsPrep

/-- One row of a raw `<term_key>_data.csv`: date (day number since
1970-01-01) and the possibly-missing interest score (integral in these
files, which come from the interest-over-time API). -/
structure RawRow where
  date : Int
  interest_score : Option Int
deriving DecidableEq, Repr

/-- One daily row after `process_term`. -/
structure DailyRow where
  date : Int
  search_term : String
  category : String
  interest_score : Int
  region : String
deriving DecidableEq, Repr

def dailyLE (a b : DailyRow) : Prop := a.date ≤ b.date

instance : DecidableRel dailyLE := fun a b => Int.decLe a.date b.date

instance : IsTotal DailyRow dailyLE := ⟨fun a b => Int.le_total a.date b.date⟩

instance : IsTrans DailyRow dailyLE := ⟨fun _ _ _ h h' => Int.le_trans h h'⟩

/-- `TrendsPreprocessor.process_term` (`preprocess_trends.py` lines
73-103): `interest_score.fillna(0).astype(int)` (scores are integral, so
the cast is the identity), attach the term/category/region columns, sort
by date. -/
def process_term (rows : List RawRow) (search_term category region : String) :
    List DailyRow :=
  (rows.map (fun r =>
    DailyRow.mk r.date search_term category (r.interest_score.getD 0) region)).insertionSort
    dailyLE

/-- End of the `W-SUN` bin containing day `d`: the next Sunday at or
after `d` (1970-01-01 = day 0 was a Thursday, so Sundays are ≡ 3 mod 7);
`W-SUN` bins are right-closed at Sundays. -/
def bin_end (d : Int) : Int := d + (3 - d) % 7

/-- All `W-SUN` bin ends from the bin of `dmin` to the bin of `dmax`
(pandas materialises EVERY weekly bin in the span, including empty
ones). -/
def bins (dmin dmax : Int) : List Int :=
  (List.range (((bin_end dmax - bin_end dmin) / 7).toNat + 1)).map
    (fun i : Nat => bin_end dmin + 7 * (i : Int))

def min_date : List DailyRow → Int
  | [] => 0
  | r :: rest => rest.foldl (fun m s => min m s.date) r.date

def max_date : List DailyRow → Int
  | [] => 0
  | r :: rest => rest.foldl (fun m s => max m s.date) r.date

/-- Mean of the interest scores of a bucket. -/
def mean_score (g : List DailyRow) : ℚ :=
  (g.map (fun r => (r.interest_score : ℚ))).sum / (g.length : ℚ)

/-- numpy / pandas `round()`: round half to even. -/
def round_half_even (q : ℚ) : Int :=
  if q - ⌊q⌋ < 1 / 2 then ⌊q⌋
  else if (1 : ℚ) / 2 < q - ⌊q⌋ then ⌊q⌋ + 1
  else if 2 ∣ ⌊q⌋ then ⌊q⌋ else ⌊q⌋ + 1

/-- One weekly aggregate before the int cast: `avg` is `none` for an
empty bin (pandas NaN); `category`/`region` are the bucket's `first`
(= first non-null) entry. -/
structure WeeklyOpt where
  week_start_date : Int
  avg : Option ℚ
  category : Option String
  region : Option String
deriving DecidableEq, Repr

/-- The `resample('W-SUN', label='left')` aggregation of `process_all`
(lines 139-151): one output row per weekly bin in the span of the data,
labelled with the bin's left boundary (the Sunday before its first day;
the bin covers `(label, label+7]`), `interest_score` averaged,
`category`/`region` taken from the first row of the bin. -/
def resample_bins (rows : List DailyRow) : List WeeklyOpt :=
  (bins (min_date rows) (max_date rows)).map (fun e =>
    let g := rows.filter (fun r => e - 7 < r.date ∧ r.date ≤ e)
    { week_start_date := e - 7
      avg := if g.isEmpty then none else some (mean_score g)
      category := g.head?.map (fun r => r.category)
      region := g.head?.map (fun r => r.region) })

/-- One finished weekly row of `trends_data.csv`. -/
structure WeeklyRow where
  week_start_date : Int
  search_term : String
  category : String
  avg_interest_score : Int
  region : String
deriving DecidableEq, Repr

/-- The `round().astype(int)` pass over the aggregated bins, attaching
the term back: `none` models the `ValueError` that `astype(int)` raises
on a NaN average, i.e. whenever some weekly bin in the span is empty. -/
def int_cast_rows (term : String) : List WeeklyOpt → Option (List WeeklyRow)
  | [] => some []
  | w :: rest =>
    match w.avg, w.category, w.region with
    | some q, some c, some g =>
      match int_cast_rows term rest with
      | some ws =>
        some (⟨w.week_start_date, term, c, round_half_even q, g⟩ :: ws)
      | none => none
    | _, _, _ => none

/-- The per-term weekly resample of `process_all` (lines 139-165). -/
def resample_weekly_term (term : String) (rows : List DailyRow) :
    Option (List WeeklyRow) :=
  int_cast_rows term (resample_bins rows)

end TrendsPrep

namespace Zillow

/-- One row of the city-latest snapshot (`create_city_latest_table`
output): identity columns, `latest_date`, and one `Option ℚ` column per
metric — `none` where the pivot left NaN because the city has no value
for that metric. -/
structure CityRow where
  region_name : String
  state_name : String
  region_type : String
  latest_date : Int
  active_listings : Option ℚ
  new_listings : Option ℚ
  sales_count : Option ℚ
  new_construction_sales_count : Option ℚ
  median_sale_price : Option ℚ
  zhvi : Option ℚ
  market_heat_index : Option ℚ
  new_construction_median_sale_price : Option ℚ
  new_homeowner_affordability : Option ℚ
deriving DecidableEq, Repr

/-- pandas groupby `sum` of one metric column: missing entries are
skipped (equivalently: contribute zero); an all-missing group sums to 0. -/
def col_sum (vs : List (Option ℚ)) : ℚ := (vs.filterMap id).sum

/-- pandas groupby `mean` of one metric column: missing entries are
excluded from numerator AND denominator; an all-missing group is NaN
(`none`). -/
def col_mean (vs : List (Option ℚ)) : Option ℚ :=
  let xs := vs.filterMap id
  if xs.isEmpty then none else some (xs.sum / (xs.length : ℚ))

def max_latest_date : List CityRow → Int
  | [] => 0
  | r :: rest => rest.foldl (fun m s => max m s.latest_date) r.latest_date

/-- One row of the state-aggregated table. -/
structure StateRow where
  state_name : String
  city_count : Nat
  latest_date : Int
  active_listings : ℚ
  new_listings : ℚ
  sales_count : ℚ
  new_construction_sales_count : ℚ
  median_sale_price : Option ℚ
  zhvi : Option ℚ
  market_heat_index : Option ℚ
  new_construction_median_sale_price : Option ℚ
  new_homeowner_affordability : Option ℚ
deriving DecidableEq, Repr

/-- Distinct values in first-appearance order. -/
def distinct : List String → List String
  | [] => []
  | s :: rest => if s ∈ distinct rest then distinct rest else s :: distinct rest

/-- Distinct group keys, ascending (pandas `groupby` sorts its keys). -/
def distinct_sorted (l : List String) : List String :=
  (distinct l).insertionSort (fun a b => a ≤ b)

/-- `ZillowPreprocessor.create_state_aggregated_table`
(`preprocess_zillow.py` lines 236-277): filter to `region_type == 'msa'`,
group by `state_name`; `region_name` is counted (`city_count`),
`latest_date` maxed, the four flow metrics summed, every other metric
column averaged. -/
def create_state_aggregated_table (df_city_latest : List CityRow) : List StateRow :=
  let df_msa := df_city_latest.filter (fun r => r.region_type = "msa")
  (distinct_sorted (df_msa.map (fun r => r.state_name))).map (fun s =>
    let g := df_msa.filter (fun r => r.state_name = s)
    { state_name := s
      city_count := g.length
      latest_date := max_latest_date g
      active_listings := col_sum (g.map (fun r => r.active_listings))
      new_listings := col_sum (g.map (fun r => r.new_listings))
      sales_count := col_sum (g.map (fun r => r.sales_count))
      new_construction_sales_count :=
        col_sum (g.map (fun r => r.new_construction_sales_count))
      median_sale_price := col_mean (g.map (fun r => r.median_sale_price))
      zhvi := col_mean (g.map (fun r => r.zhvi))
      market_heat_index := col_mean (g.map (fun r => r.market_heat_index))
      new_construction_median_sale_price :=
        col_mean (g.map (fun r => r.new_construction_median_sale_price))
      new_homeowner_affordability :=
        col_mean (g.map (fun r => r.new_homeowner_affordability)) })

/-- One identity row of a wide-format Zillow CSV, with one value cell per
date column (`none` = empty cell). -/
structure WideRow where
  region_id : Int
  size_rank : Int
  region_name : String
  region_type : String
  state_name : String
  values : List (Option ℚ)
deriving DecidableEq, Repr

/-- One long-format fact row (after the rename/reorder that drops
`size_rank`). -/
structure LongRow where
  region_id : Int
  region_name : String
  region_type : String
  state_name : String
  metric_type : String
  date : Int
  value : ℚ
deriving DecidableEq, Repr

/-- The wide-to-long core of `ZillowPreprocessor.process_file` (lines
87-127): melt (pandas stacks the value columns one date column at a
time), attach `metric_type`, rename/reorder, and drop the rows whose
value is null. -/
def process_file (metric_type : String) (dates : List Int) (rows : List WideRow) :
    List LongRow :=
  dates.enum.flatMap (fun jd =>
    rows.filterMap (fun r =>
      match r.values.getD jd.1 none with
      | some v => some ⟨r.region_id, r.region_name, r.region_type, r.state_name,
          metric_type, jd.2, v⟩
      | none => none))

/-- Pivot the long rows back to wide over the same metric: the value for
a region/date is the first matching row's value. -/
def pivot_value (long : List LongRow) (rid : Int) (d : Int) : Option ℚ :=
  (long.find? (fun r => r.region_id = rid ∧ r.date = d)).map (fun r => r.value)

end Zillow

namespace Retry

def MAX_RETRIES : Nat := 3

def BACKOFF_FACTOR : Nat := 2

/-- `RedditFetcher._make_request` (`fetch_reddit.py` lines 73-107)
against an abstract network: `oracle n` is the outcome of attempt number
`n` (counting from 0), `none` being a raised `RequestException`.  Result:
the response (`none` = the final re-raise after `MAX_RETRIES` retries)
and the list of backoff sleeps performed, in order.  `budget` is the
structural bound `MAX_RETRIES - retry_count`, carried so that the
recursion is structural; the guard `retry_count < MAX_RETRIES` is the
source's. -/
def make_request_go (oracle : Nat → Option α) : Nat → Nat → Option α × List Nat
  | retry_count, budget =>
    match oracle retry_count with
    | some a => (some a, [])
    | none =>
      if retry_count < MAX_RETRIES then
        match budget with
        | b + 1 =>
          let r := make_request_go oracle (retry_count + 1) b
          (r.1, BACKOFF_FACTOR ^ retry_count :: r.2)
        | 0 => (none, [])
      else (none, [])

/-- `_make_request(params)` entry point (`retry_count = 0`). -/
def make_request (oracle : Nat → Option α) : Option α × List Nat :=
  make_request_go oracle 0 MAX_RETRIES

/-- The loop of `RedditFetcher.fetch_all` (lines 300-305): every unit is
attempted; an exception from one unit is caught and logged and the loop
continues with the next unit. -/
def fetch_all_loop (run : String → Except String Unit) :
    List String → List (String × Bool)
  | [] => []
  | u :: rest =>
    (match run u with
     | .ok _ => (u, true)
     | .error _ => (u, false)) :: fetch_all_loop run rest

end Retry

section

/- `Rat.mul`, `Rat.add`, `Rat.inv` and `Rat.sub` are `@[irreducible]` in
the library, which blocks `decide` on concrete rational computations;
this scope restores the default reducibility for them. -/
attribute [local semireducible] Rat.mul Rat.add Rat.inv Rat.sub

namespace RedditFetch

theorem mem_of_mem_dedup_posts : ∀ {l : List RawPost} {seen : List String} {p : RawPost},
    p ∈ dedup_posts l seen → p ∈ l
  | [], _, _, h => by simp [dedup_posts] at h
  | a :: rest, seen, p, h => by
    cases ha : a.id with
    | none =>
      simp only [dedup_posts, ha] at h
      exact List.mem_cons_of_mem _ (mem_of_mem_dedup_posts h)
    | some pid =>
      simp only [dedup_posts, ha] at h
      split at h
      · rcases List.mem_cons.mp h with h' | h'
        · exact h' ▸ List.mem_cons_self _ _
        · exact List.mem_cons_of_mem _ (mem_of_mem_dedup_posts h')
      · exact List.mem_cons_of_mem _ (mem_of_mem_dedup_posts h)

theorem dedup_posts_id_facts : ∀ {l : List RawPost} {seen : List String} {p : RawPost},
    p ∈ dedup_posts l seen → ∃ pid, p.id = some pid ∧ pid ≠ "" ∧ pid ∉ seen
  | [], _, _, h => by simp [dedup_posts] at h
  | a :: rest, seen, p, h => by
    cases ha : a.id with
    | none =>
      simp only [dedup_posts, ha] at h
      exact dedup_posts_id_facts h
    | some pid =>
      simp only [dedup_posts, ha] at h
      split at h
      · next hc =>
        rcases List.mem_cons.mp h with h' | h'
        · exact ⟨pid, by rw [h', ha], hc.1, hc.2⟩
        · obtain ⟨q, hq, hne, hnotin⟩ := dedup_posts_id_facts h'
          exact ⟨q, hq, hne, fun hs => hnotin (List.mem_cons_of_mem _ hs)⟩
      · exact dedup_posts_id_facts h

theorem dedup_posts_pairwise_ne : ∀ (l : List RawPost) (seen : List String),
    (dedup_posts l seen).Pairwise (fun a b => a.id ≠ b.id)
  | [], _ => by simp [dedup_posts]
  | a :: rest, seen => by
    cases ha : a.id with
    | none => simpa only [dedup_posts, ha] using dedup_posts_pairwise_ne rest seen
    | some pid =>
      simp only [dedup_posts, ha]
      split
      · refine List.Pairwise.cons ?_ (dedup_posts_pairwise_ne rest (pid :: seen))
        intro q hq
        obtain ⟨qid, hqid, _, hqnotin⟩ := dedup_posts_id_facts hq
        rw [ha, hqid]
        intro hcontra
        exact hqnotin (Option.some.inj hcontra ▸ List.mem_cons_self _ _)
      · exact dedup_posts_pairwise_ne rest seen

theorem dedup_posts_keeps_first : ∀ {l : List RawPost} {seen : List String} {pid : String}
    {p : RawPost}, pid ≠ "" → pid ∉ seen →
    l.find? (fun q => q.id = some pid) = some p → p ∈ dedup_posts l seen
  | [], _, _, _, _, _, hf => by simp at hf
  | a :: rest, seen, pid, p, hne, hnotin, hf => by
    by_cases hmatch : a.id = some pid
    · rw [List.find?_cons_of_pos _ (by simpa using hmatch)] at hf
      have hp : p = a := (Option.some.inj hf).symm
      subst hp
      simp only [dedup_posts, hmatch]
      rw [if_pos ⟨hne, hnotin⟩]
      exact List.mem_cons_self _ _
    · rw [List.find?_cons_of_neg _ (by simpa using hmatch)] at hf
      cases ha : a.id with
      | none =>
        simp only [dedup_posts, ha]
        exact dedup_posts_keeps_first hne hnotin hf
      | some aid =>
        simp only [dedup_posts, ha]
        split
        · refine List.mem_cons_of_mem _ (dedup_posts_keeps_first hne ?_ hf)
          intro hmem
          rcases List.mem_cons.mp hmem with h' | h'
          · exact hmatch (h' ▸ ha)
          · exact hnotin h'
        · exact dedup_posts_keeps_first hne hnotin hf

theorem save_posts_merge_sorted (existing posts : List RawPost) :
    (save_posts_merge existing posts).Sorted tsLE :=
  List.sorted_insertionSort tsLE _

theorem save_posts_merge_unique_ids (existing posts : List RawPost) :
    (save_posts_merge existing posts).Pairwise (fun a b => a.id ≠ b.id) :=
  ((List.perm_insertionSort tsLE _).pairwise_iff fun h => (h ·.symm)).mpr
    (dedup_posts_pairwise_ne _ [])

theorem save_posts_merge_first_wins {existing posts : List RawPost} {pid : String}
    {p : RawPost} (hne : pid ≠ "")
    (hf : (existing ++ posts).find? (fun q => q.id = some pid) = some p) :
    p ∈ save_posts_merge existing posts :=
  (List.mem_insertionSort tsLE).mpr
    (dedup_posts_keeps_first hne (List.not_mem_nil pid) hf)

end RedditFetch

namespace TrendsFetch

theorem mem_of_mem_drop_duplicate_dates : ∀ {l : List TrendRow} {r : TrendRow},
    r ∈ drop_duplicate_dates l → r ∈ l
  | [], _, h => by simp [drop_duplicate_dates] at h
  | a :: rest, r, h => by
    simp only [drop_duplicate_dates] at h
    split at h
    · exact List.mem_cons_of_mem _ (mem_of_mem_drop_duplicate_dates h)
    · rcases List.mem_cons.mp h with h' | h'
      · exact h' ▸ List.mem_cons_self _ _
      · exact List.mem_cons_of_mem _ (mem_of_mem_drop_duplicate_dates h')

theorem drop_duplicate_dates_pairwise_ne : ∀ (l : List TrendRow),
    (drop_duplicate_dates l).Pairwise (fun a b => a.date ≠ b.date)
  | [] => by simp [drop_duplicate_dates]
  | a :: rest => by
    simp only [drop_duplicate_dates]
    split
    · exact drop_duplicate_dates_pairwise_ne rest
    · next hany =>
      refine List.Pairwise.cons ?_ (drop_duplicate_dates_pairwise_ne rest)
      intro s hs hcontra
      exact hany (List.any_eq_true.mpr
        ⟨s, mem_of_mem_drop_duplicate_dates hs, by simpa using hcontra.symm⟩)

theorem drop_duplicate_dates_keeps_last : ∀ {l : List TrendRow} {d : Int} {r : TrendRow},
    last_with_date l d = some r → r ∈ drop_duplicate_dates l
  | [], _, _, h => by simp [last_with_date] at h
  | a :: rest, d, r, h => by
    rw [last_with_date, List.reverse_cons, List.find?_append] at h
    simp only [drop_duplicate_dates]
    cases hrev : (rest.reverse.find? fun x => x.date = d) with
    | some r' =>
      rw [hrev] at h
      have hr : r' = r := Option.some.inj (by simpa using h)
      subst hr
      have hmem : r' ∈ drop_duplicate_dates rest :=
        @drop_duplicate_dates_keeps_last rest d r' hrev
      split
      · exact hmem
      · exact List.mem_cons_of_mem _ hmem
    | none =>
      rw [hrev] at h
      simp only [Option.none_or] at h
      have hfacts := List.find?_some h
      have hmem := List.mem_of_find?_eq_some h
      have hra : r = a := by simpa using hmem
      subst hra
      have hd : r.date = d := by simpa using hfacts
      have hnod : ∀ x ∈ rest, ¬ x.date = d := by
        intro x hx
        have := List.find?_eq_none.mp hrev x (by simpa using hx)
        simpa using this
      split
      · next hany =>
        obtain ⟨s, hs, hsd⟩ := List.any_eq_true.mp hany
        exact absurd (hd ▸ (by simpa using hsd : s.date = r.date)) (hnod s hs)
      · exact List.mem_cons_self _ _

theorem save_term_data_merge_sorted (existing data : List TrendRow) :
    (save_term_data_merge existing data).Sorted dateLE :=
  List.sorted_insertionSort dateLE _

theorem save_term_data_merge_unique_dates (existing data : List TrendRow) :
    (save_term_data_merge existing data).Pairwise (fun a b => a.date ≠ b.date) :=
  ((List.perm_insertionSort dateLE _).pairwise_iff fun h => (h ·.symm)).mpr
    (drop_duplicate_dates_pairwise_ne _)

theorem save_term_data_merge_last_wins {existing data : List TrendRow} {d : Int}
    {r : TrendRow} (hf : last_with_date (existing ++ data) d = some r) :
    r ∈ save_term_data_merge existing data :=
  (List.mem_insertionSort dateLE).mpr (drop_duplicate_dates_keeps_last hf)

/-- A date present in the newly fetched data always takes its value from
the newly fetched data: the survivor is the last matching new row. -/
theorem save_term_data_merge_new_overwrites {existing data : List TrendRow} {d : Int}
    {r : TrendRow} (hf : last_with_date data d = some r) :
    r ∈ save_term_data_merge existing data := by
  refine @save_term_data_merge_last_wins existing data d r ?_
  rw [last_with_date, List.reverse_append, List.find?_append]
  rw [last_with_date] at hf
  rw [hf]
  rfl

end TrendsFetch

namespace FredFetch

theorem mem_of_mem_dedup_obs : ∀ {l : List Obs} {seen : List Int} {o : Obs},
    o ∈ dedup_obs l seen → o ∈ l
  | [], _, _, h => by simp [dedup_obs] at h
  | a :: rest, seen, o, h => by
    simp only [dedup_obs] at h
    split at h
    · exact List.mem_cons_of_mem _ (mem_of_mem_dedup_obs h)
    · rcases List.mem_cons.mp h with h' | h'
      · exact h' ▸ List.mem_cons_self _ _
      · exact List.mem_cons_of_mem _ (mem_of_mem_dedup_obs h')

theorem dedup_obs_date_not_seen : ∀ {l : List Obs} {seen : List Int} {o : Obs},
    o ∈ dedup_obs l seen → o.date ∉ seen
  | [], _, _, h => by simp [dedup_obs] at h
  | a :: rest, seen, o, h => by
    simp only [dedup_obs] at h
    split at h
    · exact dedup_obs_date_not_seen h
    · next hnot =>
      rcases List.mem_cons.mp h with h' | h'
      · exact h' ▸ hnot
      · intro hs
        exact dedup_obs_date_not_seen h' (List.mem_cons_of_mem _ hs)

theorem dedup_obs_pairwise_ne : ∀ (l : List Obs) (seen : List Int),
    (dedup_obs l seen).Pairwise (fun a b => a.date ≠ b.date)
  | [], _ => by simp [dedup_obs]
  | a :: rest, seen => by
    simp only [dedup_obs]
    split
    · exact dedup_obs_pairwise_ne rest seen
    · refine List.Pairwise.cons ?_ (dedup_obs_pairwise_ne rest (a.date :: seen))
      intro q hq hcontra
      exact dedup_obs_date_not_seen hq (hcontra ▸ List.mem_cons_self _ _)

theorem dedup_obs_keeps_first : ∀ {l : List Obs} {seen : List Int} {d : Int} {o : Obs},
    d ∉ seen → l.find? (fun q => q.date = d) = some o → o ∈ dedup_obs l seen
  | [], _, _, _, _, hf => by simp at hf
  | a :: rest, seen, d, o, hnotin, hf => by
    by_cases hmatch : a.date = d
    · rw [List.find?_cons_of_pos _ (by simpa using hmatch)] at hf
      have ho : o = a := (Option.some.inj hf).symm
      subst ho
      simp only [dedup_obs]
      rw [if_neg (hmatch ▸ hnotin)]
      exact List.mem_cons_self _ _
    · rw [List.find?_cons_of_neg _ (by simpa using hmatch)] at hf
      simp only [dedup_obs]
      split
      · exact dedup_obs_keeps_first hnotin hf
      · refine List.mem_cons_of_mem _ (dedup_obs_keeps_first ?_ hf)
        intro hmem
        rcases List.mem_cons.mp hmem with h' | h'
        · exact hmatch h'.symm
        · exact hnotin h'

theorem fetch_series_merge_sorted (existing observations : List Obs) :
    (fetch_series_merge existing observations).Sorted dateLE :=
  List.sorted_insertionSort dateLE _

theorem fetch_series_merge_unique_dates (existing observations : List Obs) :
    (fetch_series_merge existing observations).Pairwise (fun a b => a.date ≠ b.date) :=
  ((List.perm_insertionSort dateLE _).pairwise_iff fun h => (h ·.symm)).mpr
    (dedup_obs_pairwise_ne _ [])

theorem fetch_series_merge_first_wins {existing observations : List Obs} {d : Int}
    {o : Obs} (hf : first_with_date (existing ++ observations) d = some o) :
    o ∈ fetch_series_merge existing observations :=
  (List.mem_insertionSort dateLE).mpr
    (dedup_obs_keeps_first (List.not_mem_nil d) hf)

end FredFetch

namespace RedditFetch

theorem dedup_posts_append : ∀ (l extra : List RawPost) (seen : List String),
    dedup_posts (l ++ extra) seen =
      dedup_posts l seen ++ dedup_posts extra (seen_after l seen)
  | [], _, _ => rfl
  | a :: rest, extra, seen => by
    cases ha : a.id with
    | none =>
      simp only [List.cons_append, dedup_posts, seen_after, ha]
      exact dedup_posts_append rest extra seen
    | some pid =>
      simp only [List.cons_append, dedup_posts, seen_after, ha]
      split
      · show a :: dedup_posts (rest ++ extra) (pid :: seen) =
          (a :: dedup_posts rest (pid :: seen)) ++ dedup_posts extra (seen_after rest (pid :: seen))
        rw [dedup_posts_append rest extra (pid :: seen)]
        rfl
      · exact dedup_posts_append rest extra seen

theorem subset_seen_after : ∀ (l : List RawPost) {seen : List String} {s : String},
    s ∈ seen → s ∈ seen_after l seen
  | [], _, _, h => h
  | a :: rest, seen, s, h => by
    cases ha : a.id with
    | none => simpa only [seen_after, ha] using subset_seen_after rest h
    | some pid =>
      simp only [seen_after, ha]
      split
      · exact subset_seen_after rest (List.mem_cons_of_mem _ h)
      · exact subset_seen_after rest h

theorem id_mem_seen_after : ∀ {l : List RawPost} {seen : List String} {p : RawPost}
    {pid : String}, p ∈ l → p.id = some pid → pid ≠ "" → pid ∈ seen_after l seen
  | [], _, _, _, hp, _, _ => absurd hp (List.not_mem_nil _)
  | a :: rest, seen, p, pid, hp, hid, hne => by
    cases ha : a.id with
    | none =>
      simp only [seen_after, ha]
      rcases List.mem_cons.mp hp with h' | h'
      · exact absurd (h' ▸ hid) (by simp [ha])
      · exact id_mem_seen_after h' hid hne
    | some aid =>
      simp only [seen_after, ha]
      split
      · rcases List.mem_cons.mp hp with h' | h'
        · have : pid = aid := by
            have := h' ▸ hid
            rw [ha] at this
            exact (Option.some.inj this).symm
          exact subset_seen_after rest (this ▸ List.mem_cons_self _ _)
        · exact id_mem_seen_after h' hid hne
      · next hcond =>
        rcases List.mem_cons.mp hp with h' | h'
        · have heq : pid = aid := by
            have := h' ▸ hid
            rw [ha] at this
            exact (Option.some.inj this).symm
          have : aid ∈ seen := by
            rcases Decidable.not_and_iff_or_not.mp hcond with h | h
            · exact absurd (heq ▸ rfl : aid = aid) (fun _ => (heq ▸ hne) (not_not.mp h))
            · exact not_not.mp h
          exact subset_seen_after rest (heq ▸ this)
        · exact id_mem_seen_after h' hid hne

theorem dedup_posts_eq_self : ∀ {l : List RawPost} {seen : List String},
    (∀ p ∈ l, ∃ pid, p.id = some pid ∧ pid ≠ "" ∧ pid ∉ seen) →
    l.Pairwise (fun a b => a.id ≠ b.id) →
    dedup_posts l seen = l
  | [], _, _, _ => rfl
  | a :: rest, seen, hvalid, hpw => by
    obtain ⟨pid, hid, hne, hnotin⟩ := hvalid a (List.mem_cons_self _ _)
    simp only [dedup_posts, hid]
    rw [if_pos ⟨hne, hnotin⟩]
    congr 1
    refine dedup_posts_eq_self ?_ (List.Pairwise.of_cons hpw)
    intro p hp
    obtain ⟨qid, hqid, hqne, hqnotin⟩ := hvalid p (List.mem_cons_of_mem _ hp)
    refine ⟨qid, hqid, hqne, ?_⟩
    intro hmem
    rcases List.mem_cons.mp hmem with h' | h'
    · exact (List.rel_of_pairwise_cons hpw hp) (by rw [hid, hqid, h'])
    · exact hqnotin h'

theorem dedup_posts_eq_nil : ∀ {l : List RawPost} {seen : List String},
    (∀ p ∈ l, ∀ pid, p.id = some pid → pid = "" ∨ pid ∈ seen) →
    dedup_posts l seen = []
  | [], _, _ => rfl
  | a :: rest, seen, h => by
    cases ha : a.id with
    | none =>
      simp only [dedup_posts, ha]
      exact dedup_posts_eq_nil fun p hp => h p (List.mem_cons_of_mem _ hp)
    | some aid =>
      simp only [dedup_posts, ha]
      rw [if_neg]
      · exact dedup_posts_eq_nil fun p hp => h p (List.mem_cons_of_mem _ hp)
      · rcases h a (List.mem_cons_self _ _) aid ha with h' | h'
        · exact fun hc => hc.1 h'
        · exact fun hc => hc.2 h'

theorem save_posts_merge_idem (existing posts : List RawPost) :
    save_posts_merge (save_posts_merge existing posts) posts =
      save_posts_merge existing posts := by
  set M := save_posts_merge existing posts with hM
  have hMvalid : ∀ p ∈ M, ∃ pid, p.id = some pid ∧ pid ≠ "" ∧ pid ∉ ([] : List String) := by
    intro p hp
    have hp' : p ∈ dedup_posts (existing ++ posts) [] :=
      (List.mem_insertionSort tsLE).mp (by rw [hM] at hp; exact hp)
    obtain ⟨pid, h1, h2, _⟩ := dedup_posts_id_facts hp'
    exact ⟨pid, h1, h2, List.not_mem_nil pid⟩
  have hA : dedup_posts M [] = M :=
    dedup_posts_eq_self hMvalid (hM ▸ save_posts_merge_unique_ids existing posts)
  have hB : dedup_posts posts (seen_after M []) = [] := by
    refine dedup_posts_eq_nil ?_
    intro p hp pid hid
    by_cases hne : pid = ""
    · exact Or.inl hne
    · refine Or.inr ?_
      have hmem : p ∈ existing ++ posts := List.mem_append_right existing hp
      obtain ⟨q, hq⟩ : ∃ q, (existing ++ posts).find? (fun r => r.id = some pid) = some q := by
        cases hcase : (existing ++ posts).find? (fun r => r.id = some pid) with
        | some q => exact ⟨q, rfl⟩
        | none =>
          have := List.find?_eq_none.mp hcase p hmem
          simp [hid] at this
      have hqM : q ∈ M := hM ▸ save_posts_merge_first_wins hne hq
      have hqid : q.id = some pid := by simpa using List.find?_some hq
      exact id_mem_seen_after hqM hqid hne
  have hsorted : M.Sorted tsLE := hM ▸ save_posts_merge_sorted existing posts
  show (dedup_posts (M ++ posts) []).insertionSort tsLE = M
  rw [dedup_posts_append, hA, hB, List.append_nil]
  exact hsorted.insertionSort_eq

theorem save_posts_idem (st : SubredditState) (posts : List RawPost) :
    save_posts (save_posts st posts) posts = save_posts st posts := by
  simp only [save_posts, Option.getD_some]
  rw [save_posts_merge_idem]

end RedditFetch

/-- C1, counterexample: the claim asserts first-seen-wins for the merge of
EVERY source, but the Google-Trends fetcher (`save_term_data`,
`fetch_trends.py` line 149, `drop_duplicates(subset=['date'],
keep='last')`) keeps the LAST occurrence: merging the persisted row
`{date: 0, interest_score: 1}` with a newly fetched row
`{date: 0, interest_score: 2}` for the same date yields the newly fetched
value and discards the persisted one. -/
theorem c1_counterexample_trends_last_wins :
    TrendsFetch.save_term_data_merge [⟨0, 1⟩] [⟨0, 2⟩] = [⟨0, 2⟩] ∧
    (⟨0, 1⟩ : TrendsFetch.TrendRow) ∉ TrendsFetch.save_term_data_merge [⟨0, 1⟩] [⟨0, 2⟩] := by
  decide

/-- C1, amended: for every merge the merged natural keys are unique and
the merged collection is sorted ascending by its timestamp field; the
Reddit merge (`save_posts`) and the FRED merge (`fetch_series`)
deduplicate first-seen-in-merged-list wins, so a previously persisted
record is kept and a later fetch never overwrites it; the Trends merge
(`save_term_data`) instead deduplicates keep-last, so for a date present
in both collections the NEWLY fetched row survives and the previously
persisted row is dropped. -/
theorem c1_merge_dedup_amended
    (existing posts : List RedditFetch.RawPost)
    (existingO observations : List FredFetch.Obs)
    (existingT data : List TrendsFetch.TrendRow) :
    ((RedditFetch.save_posts_merge existing posts).Sorted RedditFetch.tsLE ∧
      (RedditFetch.save_posts_merge existing posts).Pairwise (fun a b => a.id ≠ b.id) ∧
      ∀ pid p, pid ≠ "" →
        (existing ++ posts).find? (fun q => q.id = some pid) = some p →
        p ∈ RedditFetch.save_posts_merge existing posts) ∧
    ((FredFetch.fetch_series_merge existingO observations).Sorted FredFetch.dateLE ∧
      (FredFetch.fetch_series_merge existingO observations).Pairwise
        (fun a b => a.date ≠ b.date) ∧
      ∀ d o, FredFetch.first_with_date (existingO ++ observations) d = some o →
        o ∈ FredFetch.fetch_series_merge existingO observations) ∧
    ((TrendsFetch.save_term_data_merge existingT data).Sorted TrendsFetch.dateLE ∧
      (TrendsFetch.save_term_data_merge existingT data).Pairwise
        (fun a b => a.date ≠ b.date) ∧
      (∀ d r, TrendsFetch.last_with_date (existingT ++ data) d = some r →
        r ∈ TrendsFetch.save_term_data_merge existingT data) ∧
      ∀ d r, TrendsFetch.last_with_date data d = some r →
        r ∈ TrendsFetch.save_term_data_merge existingT data) :=
  ⟨⟨RedditFetch.save_posts_merge_sorted existing posts,
    RedditFetch.save_posts_merge_unique_ids existing posts,
    fun _pid _p hne hf => RedditFetch.save_posts_merge_first_wins hne hf⟩,
  ⟨FredFetch.fetch_series_merge_sorted existingO observations,
    FredFetch.fetch_series_merge_unique_dates existingO observations,
    fun _d _o hf => FredFetch.fetch_series_merge_first_wins hf⟩,
  ⟨TrendsFetch.save_term_data_merge_sorted existingT data,
    TrendsFetch.save_term_data_merge_unique_dates existingT data,
    (fun _d _r hf => TrendsFetch.save_term_data_merge_last_wins hf),
    fun _d _r hf => TrendsFetch.save_term_data_merge_new_overwrites hf⟩⟩

/-- Witness for C1 (amended), at the spec's own example: merging existing
posts `{id 1, v "a"}, {id 2, v "b"}` with newly fetched
`{id 2, v "c"}, {id 3, v "d"}` keeps the persisted record for id 2 with
value "b". -/
theorem c1_merge_dedup_amended_witness :
    (⟨some "2", 2, "b"⟩ : RedditFetch.RawPost) ∈
      RedditFetch.save_posts_merge
        [⟨some "1", 1, "a"⟩, ⟨some "2", 2, "b"⟩]
        [⟨some "2", 5, "c"⟩, ⟨some "3", 3, "d"⟩] :=
  ((c1_merge_dedup_amended
      [⟨some "1", 1, "a"⟩, ⟨some "2", 2, "b"⟩]
      [⟨some "2", 5, "c"⟩, ⟨some "3", 3, "d"⟩] [] [] [] []).1.2.2)
    "2" ⟨some "2", 2, "b"⟩ (by decide) (by decide)

/-- C2: re-running the incremental fetch-and-merge cycle for a subreddit
against an upstream source that returns the same items both times leaves
the persisted raw collection and the checkpoint watermark unchanged.  The
hypothesis `hsame` is the claim's own premise that the upstream served the
second run the same item list as the first
(`fetch_subreddit` merges first-seen-wins, so remerging the same items is
a no-op and the recomputed watermark coincides). -/
theorem c2_fetch_cycle_idempotent (upstream : List RedditFetch.RawPost)
    (st : RedditFetch.SubredditState) (default_after before limit fuel : Nat)
    (hsame :
      RedditFetch.fetched_posts upstream
          (RedditFetch.fetch_subreddit upstream st default_after before limit fuel)
          default_after before limit fuel =
        RedditFetch.fetched_posts upstream st default_after before limit fuel) :
    RedditFetch.fetch_subreddit upstream
        (RedditFetch.fetch_subreddit upstream st default_after before limit fuel)
        default_after before limit fuel =
      RedditFetch.fetch_subreddit upstream st default_after before limit fuel := by
  by_cases hI :
      (RedditFetch.fetched_posts upstream st default_after before limit fuel).isEmpty = true
  · have h1 : RedditFetch.fetch_subreddit upstream st default_after before limit fuel = st := by
      simp [RedditFetch.fetch_subreddit, hI]
    rw [h1]
    exact h1
  · have h1 : RedditFetch.fetch_subreddit upstream st default_after before limit fuel =
        RedditFetch.save_posts st
          (RedditFetch.fetched_posts upstream st default_after before limit fuel) := by
      simp [RedditFetch.fetch_subreddit, hI]
    rw [h1] at hsame ⊢
    simp only [RedditFetch.fetch_subreddit, hsame]
    rw [if_neg hI]
    exact RedditFetch.save_posts_idem st _

/-- Witness for C2: a persisted state whose collection holds post id "a"
at time 10 (watermark 10), with the unchanged upstream serving the same
newer duplicate of id "a" to both runs; the second cycle changes
nothing. -/
theorem c2_fetch_cycle_idempotent_witness :
    RedditFetch.fetch_subreddit [⟨some "a", 15, "y"⟩]
        (RedditFetch.fetch_subreddit [⟨some "a", 15, "y"⟩]
          ⟨some [⟨some "a", 10, "x"⟩], some (some 10)⟩ 0 100 100 3)
        0 100 100 3 =
      RedditFetch.fetch_subreddit [⟨some "a", 15, "y"⟩]
        ⟨some [⟨some "a", 10, "x"⟩], some (some 10)⟩ 0 100 100 3 :=
  c2_fetch_cycle_idempotent [⟨some "a", 15, "y"⟩]
    ⟨some [⟨some "a", 10, "x"⟩], some (some 10)⟩ 0 100 100 3 (by decide)

namespace RedditPrep

theorem data_eq_nil_of_isEmpty {s : String} (h : s.isEmpty = true) : s.data = [] := by
  have hs : s = "" := (String.isEmpty_iff s).mp h
  rw [hs]

theorem km_match_at_isKM {l : List Char} {q : ℚ} {c : Char}
    (h : km_match_at l = some (q, c)) : isKM c = true := by
  simp only [km_match_at] at h
  split at h
  · exact absurd h (by simp)
  · split at h
    · split at h
      · next hkm =>
        obtain ⟨-, hc⟩ := Prod.mk.injEq .. ▸ Option.some.inj h
        exact hc ▸ hkm
      · exact absurd h (by simp)
    · exact absurd h (by simp)

theorem search_km_isKM : ∀ {l : List Char} {q : ℚ} {c : Char},
    search_km l = some (q, c) → isKM c = true
  | [], _, _, h => by simp [search_km] at h
  | a :: rest, q, c, h => by
    rw [search_km] at h
    cases hm : km_match_at (a :: rest) with
    | some r =>
      rw [hm] at h
      have hr : r = (q, c) := Option.some.inj h
      exact km_match_at_isKM (hr ▸ hm)
    | none =>
      rw [hm] at h
      exact search_km_isKM h

theorem isKM_cases {c : Char} (h : isKM c = true) :
    c = 'K' ∨ c = 'k' ∨ c = 'M' ∨ c = 'm' := by
  simpa [isKM] using h

theorem extract_price_full_bounds {l : List Char} {v : ℚ}
    (h : extract_price_full l = some v) : 50000 ≤ v ∧ v ≤ 50000000 := by
  simp only [extract_price_full] at h
  split at h
  · split at h
    · next hb => exact Option.some.inj h ▸ hb
    · exact absurd h (by simp)
  · exact absurd h (by simp)

/-- If the K/M pattern finds no match, a returned price went through the
bounds check of the full-number branch. -/
theorem extract_price_bounds_of_no_km {t : String} {v : ℚ}
    (hkm : search_km t.data = none) (h : extract_price t = some v) :
    50000 ≤ v ∧ v ≤ 50000000 := by
  by_cases he : t.isEmpty = true
  · rw [extract_price, if_pos he] at h
    exact absurd h (by simp)
  · rw [extract_price, if_neg he] at h
    rw [hkm] at h
    exact extract_price_full_bounds h

end RedditPrep

open RedditPrep in
/-- C3: `extract_price` tries the K/M pattern first and, on a match,
returns exactly the matched amount times 1 000 (`K`) or 1 000 000 (`M`);
otherwise, when the fully-punctuated pattern matches, the value is
returned only when it lies within [50 000, 50 000 000]; in every other
case the result is null; and the spec's five concrete examples hold. -/
theorem c3_extract_price_spec (text : String) :
    (∀ amount suffix, search_km text.data = some (amount, suffix) →
      extract_price text = some (amount * km_mult suffix)) ∧
    (search_km text.data = none → ∀ g, search_full text.data = some g →
      extract_price text =
        (if 50000 ≤ (digitsToNat (g.filter (fun c => c ≠ ',')) : ℚ) ∧
            (digitsToNat (g.filter (fun c => c ≠ ',')) : ℚ) ≤ 50000000 then
          some ((digitsToNat (g.filter (fun c => c ≠ ',')) : ℚ)) else none)) ∧
    (search_km text.data = none → search_full text.data = none →
      extract_price text = none) ∧
    (extract_price ("$450K") = some 450000 ∧ extract_price ("450k") = some 450000 ∧
      extract_price ("$1.2M") = some 1200000 ∧ extract_price ("$450,000") = some 450000 ∧
      extract_price ("$999") = none) := by
  refine ⟨?_, ?_, ?_, by decide⟩
  · intro amount suffix h
    have hne : text.isEmpty = false := by
      cases he : text.isEmpty
      · rfl
      · rw [data_eq_nil_of_isEmpty he] at h
        simp [search_km] at h
    rcases isKM_cases (search_km_isKM h) with hc | hc | hc | hc <;> subst hc <;>
      simp [extract_price, hne, h, km_mult]
  · intro hkm g hful
    have hne : text.isEmpty = false := by
      cases he : text.isEmpty
      · rfl
      · rw [data_eq_nil_of_isEmpty he] at hful
        simp [search_full] at hful
    simp [extract_price, hne, hkm, extract_price_full, hful]
  · intro hkm hful
    cases he : text.isEmpty
    · simp [extract_price, he, hkm, extract_price_full, hful]
    · simp [extract_price, he]

/-- Witness for C3 at the spec's first example. -/
theorem c3_extract_price_spec_witness :
    RedditPrep.extract_price ("$450K") = some (450 * RedditPrep.km_mult 'K') :=
  (c3_extract_price_spec ("$450K")).1 450 'K' (by decide)

/-- C4, counterexample: the K/M extraction path has no bounds check, so a
processed r/FirstTimeHomeBuyer post titled "$1K" gets
`purchase_price = 1000.0`, far below the claimed lower bound 50 000. -/
theorem c4_counterexample_km_unbounded :
    (RedditPrep.process_firsttimehomebuyer_post [] []
        ⟨some "x", 5, some "$1K", some "", none, none, none, none⟩).purchase_price =
      some 1000 ∧
    ¬ (50000 : ℚ) ≤ 1000 := by decide

/-- C4, amended: the [50 000, 50 000 000] bound on a present
`purchase_price` holds exactly for the full-number extraction path, i.e.
whenever the K/M pattern does not match the post's combined text; a K/M
match is returned without any bounds check. -/
theorem c4_price_bound_amended (us_states : List String)
    (gaz : List RedditPrep.CityEntry) (post : RedditPrep.RawJsonPost)
    (hkm : RedditPrep.search_km
        (RedditPrep.normalize_text (post.title.getD "") ++ "\n\n" ++
          RedditPrep.normalize_text (post.selftext.getD "")).data = none) :
    ∀ v, (RedditPrep.process_firsttimehomebuyer_post us_states gaz post).purchase_price =
        some v →
      50000 ≤ v ∧ v ≤ 50000000 := by
  intro v hv
  simp only [RedditPrep.process_firsttimehomebuyer_post] at hv
  exact RedditPrep.extract_price_bounds_of_no_km hkm hv

/-- Witness for C4 (amended): a post quoting `$450,000` in its title. -/
theorem c4_price_bound_amended_witness :
    50000 ≤ (450000 : ℚ) ∧ (450000 : ℚ) ≤ 50000000 :=
  c4_price_bound_amended [] []
    ⟨some "x", 5, some "bought for $450,000 yay", some "", none, none, none, none⟩
    (by decide) 450000 (by decide)

namespace Zillow

/-- For the summed metrics, skipping missing values coincides with
zero-filling them. -/
theorem col_sum_eq_zero_fill (vs : List (Option ℚ)) :
    col_sum vs = (vs.map (fun v => v.getD 0)).sum := by
  induction vs with
  | nil => rfl
  | cons v rest ih =>
    cases v <;> simp [col_sum, List.filterMap_cons, ih] <;>
      simp [col_sum] at ih <;> simp [ih]

end Zillow

/-- C5, counterexample: in a state with two msa cities, one with
`zhvi = 100` and one with no `zhvi` value, the state rollup's `zhvi` is
100 — pandas `mean` excludes the absent-metric city — whereas the claim's
treated-as-zero semantics would give `(100 + 0) / 2 = 50`. -/
theorem c5_counterexample_mean_excludes_absent :
    (Zillow.create_state_aggregated_table
        [⟨"A", "TX", "msa", 100, some 10, none, none, none, none, some 100, none, none, none⟩,
         ⟨"B", "TX", "msa", 90, none, none, none, none, none, none, none, none, none⟩]).map
        (fun r => r.zhvi) = [some 100] ∧
    ¬ ((100 : ℚ) = (100 + 0) / 2) := by decide

/-- C5, amended: in the state rollup each SUM metric does treat an
absent city value as zero (equivalently, skips it), summing over all of
the state's msa cities; each MEAN metric instead excludes absent-metric
cities from both numerator and denominator, averaging only over the
cities that have the metric (and is null when none has it);
`city_count` counts all of the state's msa cities. -/
theorem c5_state_rollup_amended (rows : List Zillow.CityRow) :
    ∀ r ∈ Zillow.create_state_aggregated_table rows,
      r.city_count = ((rows.filter (fun x => x.region_type = "msa")).filter
          (fun x => x.state_name = r.state_name)).length ∧
      r.active_listings = ((((rows.filter (fun x => x.region_type = "msa")).filter
          (fun x => x.state_name = r.state_name)).map
            (fun x => x.active_listings.getD 0)).sum) ∧
      r.new_listings = ((((rows.filter (fun x => x.region_type = "msa")).filter
          (fun x => x.state_name = r.state_name)).map
            (fun x => x.new_listings.getD 0)).sum) ∧
      r.sales_count = ((((rows.filter (fun x => x.region_type = "msa")).filter
          (fun x => x.state_name = r.state_name)).map
            (fun x => x.sales_count.getD 0)).sum) ∧
      r.new_construction_sales_count =
        ((((rows.filter (fun x => x.region_type = "msa")).filter
          (fun x => x.state_name = r.state_name)).map
            (fun x => x.new_construction_sales_count.getD 0)).sum) ∧
      r.zhvi = Zillow.col_mean (((rows.filter (fun x => x.region_type = "msa")).filter
          (fun x => x.state_name = r.state_name)).map (fun x => x.zhvi)) ∧
      r.median_sale_price =
        Zillow.col_mean (((rows.filter (fun x => x.region_type = "msa")).filter
          (fun x => x.state_name = r.state_name)).map (fun x => x.median_sale_price)) ∧
      r.market_heat_index =
        Zillow.col_mean (((rows.filter (fun x => x.region_type = "msa")).filter
          (fun x => x.state_name = r.state_name)).map (fun x => x.market_heat_index)) ∧
      r.new_construction_median_sale_price =
        Zillow.col_mean (((rows.filter (fun x => x.region_type = "msa")).filter
          (fun x => x.state_name = r.state_name)).map
            (fun x => x.new_construction_median_sale_price)) ∧
      r.new_homeowner_affordability =
        Zillow.col_mean (((rows.filter (fun x => x.region_type = "msa")).filter
          (fun x => x.state_name = r.state_name)).map
            (fun x => x.new_homeowner_affordability)) := by
  intro r hr
  simp only [Zillow.create_state_aggregated_table, List.mem_map] at hr
  obtain ⟨st, hst, rfl⟩ := hr
  refine ⟨rfl, ?_, ?_, ?_, ?_, rfl, rfl, rfl, rfl, rfl⟩ <;>
    · simp only [Zillow.col_sum_eq_zero_fill, List.map_map]
      rfl

/-- Witness for C5 (amended): the two-city state above has
`city_count = 2`. -/
theorem c5_state_rollup_amended_witness :
    (2 : Nat) = ((([⟨"A", "TX", "msa", 100, some 10, none, none, none, none, some 100,
          none, none, none⟩,
        ⟨"B", "TX", "msa", 90, none, none, none, none, none, none, none, none, none⟩] :
          List Zillow.CityRow).filter (fun x => x.region_type = "msa")).filter
        (fun x => x.state_name = "TX")).length :=
  (c5_state_rollup_amended
    [⟨"A", "TX", "msa", 100, some 10, none, none, none, none, some 100, none, none, none⟩,
     ⟨"B", "TX", "msa", 90, none, none, none, none, none, none, none, none, none⟩]
    ⟨"TX", 2, 100, 10, 0, 0, 0, none, some 100, none, none, none⟩ (by decide)).1

namespace Retry

theorem fetch_all_loop_units (run : String → Except String Unit) :
    ∀ units : List String, (fetch_all_loop run units).map Prod.fst = units
  | [] => rfl
  | u :: rest => by
    simp only [fetch_all_loop]
    cases run u <;> simp [fetch_all_loop_units run rest]

end Retry

/-- C7: a transiently failing request is retried at most `MAX_RETRIES`
times with a sleep of `BACKOFF_FACTOR ^ attempt` before retry number
`attempt` (counting from 0); the request is abandoned (re-raises) only
after the initial attempt and all `MAX_RETRIES` retries failed; and the
orchestrating `fetch_all` loop still visits every unit, so one unit's
exhaustion never aborts the whole run. -/
theorem c7_retry_backoff_and_continue {α : Type} (oracle : Nat → Option α)
    (units : List String) (run : String → Except String Unit) :
    (Retry.make_request oracle).2 =
      (List.range (Retry.make_request oracle).2.length).map
        (fun attempt => Retry.BACKOFF_FACTOR ^ attempt) ∧
    (Retry.make_request oracle).2.length ≤ Retry.MAX_RETRIES ∧
    ((Retry.make_request oracle).1 = none →
      (Retry.make_request oracle).2.length = Retry.MAX_RETRIES ∧
      ∀ i, i ≤ Retry.MAX_RETRIES → oracle i = none) ∧
    (Retry.fetch_all_loop run units).map Prod.fst = units := by
  have key :
      (Retry.make_request oracle).2 =
        (List.range (Retry.make_request oracle).2.length).map
          (fun attempt => Retry.BACKOFF_FACTOR ^ attempt) ∧
      (Retry.make_request oracle).2.length ≤ Retry.MAX_RETRIES ∧
      ((Retry.make_request oracle).1 = none →
        (Retry.make_request oracle).2.length = Retry.MAX_RETRIES ∧
        ∀ i, i ≤ Retry.MAX_RETRIES → oracle i = none) := ?_
  · exact ⟨key.1, key.2.1, key.2.2, Retry.fetch_all_loop_units run units⟩
  cases h0 : oracle 0 with
  | some a =>
    simp [Retry.make_request, Retry.make_request_go, h0, Retry.MAX_RETRIES]
  | none =>
    cases h1 : oracle 1 with
    | some a =>
      simp [Retry.make_request, Retry.make_request_go, h0, h1, Retry.MAX_RETRIES,
        Retry.BACKOFF_FACTOR, List.range_succ]
    | none =>
      cases h2 : oracle 2 with
      | some a =>
        simp [Retry.make_request, Retry.make_request_go, h0, h1, h2, Retry.MAX_RETRIES,
          Retry.BACKOFF_FACTOR, List.range_succ]
      | none =>
        cases h3 : oracle 3 with
        | some a =>
          simp [Retry.make_request, Retry.make_request_go, h0, h1, h2, h3,
            Retry.MAX_RETRIES, Retry.BACKOFF_FACTOR, List.range_succ]
        | none =>
          refine ⟨?_, ?_, ?_⟩
          · simp [Retry.make_request, Retry.make_request_go, h0, h1, h2, h3,
              Retry.MAX_RETRIES, Retry.BACKOFF_FACTOR, List.range_succ]
          · simp [Retry.make_request, Retry.make_request_go, h0, h1, h2, h3,
              Retry.MAX_RETRIES, Retry.BACKOFF_FACTOR]
          · intro _
            refine ⟨by simp [Retry.make_request, Retry.make_request_go, h0, h1, h2, h3,
              Retry.MAX_RETRIES, Retry.BACKOFF_FACTOR], ?_⟩
            intro i hi
            simp only [Retry.MAX_RETRIES] at hi
            interval_cases i <;> assumption


/-- Witness for C7: an always-failing network exhausts exactly
`MAX_RETRIES` retries. -/
theorem c7_retry_backoff_and_continue_witness :
    (Retry.make_request (fun _ => (none : Option Unit))).2.length = Retry.MAX_RETRIES ∧
    ∀ i, i ≤ Retry.MAX_RETRIES → (fun _ => (none : Option Unit)) i = none :=
  (c7_retry_backoff_and_continue (fun _ => (none : Option Unit)) []
    (fun _ => Except.ok ())).2.2.1 (by decide)

namespace RedditPrep

/-- Every processed row originates in a raw post that was not skipped as
deleted/removed, and carries that post's id. -/
theorem mem_process_subreddit {us_states : List String} {gaz : List CityEntry}
    {subreddit : String} : ∀ {raw : List RawJsonPost} {q : ProcessedPost},
    q ∈ process_subreddit us_states gaz subreddit raw →
    ∃ p ∈ raw, ¬ (p.selftext = some "[deleted]" ∨ p.selftext = some "[removed]") ∧
      q.post_id = p.id
  | [], _, h => by simp [process_subreddit] at h
  | post :: rest, q, h => by
    simp only [process_subreddit] at h
    split at h
    · obtain ⟨p, hp, hnd, hid⟩ := mem_process_subreddit h
      exact ⟨p, List.mem_cons_of_mem _ hp, hnd, hid⟩
    · next hnd =>
      split at h
      · rcases List.mem_cons.mp h with h' | h'
        · exact ⟨post, List.mem_cons_self _ _, hnd, by rw [h']; rfl⟩
        · obtain ⟨p, hp, hnd', hid⟩ := mem_process_subreddit h'
          exact ⟨p, List.mem_cons_of_mem _ hp, hnd', hid⟩
      · split at h
        · rcases List.mem_cons.mp h with h' | h'
          · exact ⟨post, List.mem_cons_self _ _, hnd, by rw [h']; rfl⟩
          · obtain ⟨p, hp, hnd', hid⟩ := mem_process_subreddit h'
            exact ⟨p, List.mem_cons_of_mem _ hp, hnd', hid⟩
        · obtain ⟨p, hp, hnd', hid⟩ := mem_process_subreddit h
          exact ⟨p, List.mem_cons_of_mem _ hp, hnd', hid⟩

end RedditPrep

/-- C9: a raw post whose `selftext` is exactly `"[deleted]"` or
`"[removed]"` contributes no row to the processed table: under the
post-merge invariant that raw ids are pairwise distinct, no processed
row carries its id, for any subreddit. -/
theorem c9_deleted_posts_excluded (us_states : List String)
    (gaz : List RedditPrep.CityEntry) (subreddit : String)
    (raw : List RedditPrep.RawJsonPost) (post : RedditPrep.RawJsonPost)
    (hids : raw.Pairwise (fun a b => a.id ≠ b.id))
    (hpost : post ∈ raw)
    (hdel : post.selftext = some "[deleted]" ∨ post.selftext = some "[removed]") :
    ∀ q ∈ RedditPrep.process_subreddit us_states gaz subreddit raw,
      q.post_id ≠ post.id := by
  intro q hq
  obtain ⟨p, hp, hnd, hid⟩ := RedditPrep.mem_process_subreddit hq
  have hne : p ≠ post := fun hc => hnd (hc ▸ hdel)
  rw [hid]
  exact hids.forall (fun _ _ h => Ne.symm h) hp hpost hne

/-- Witness for C9: processing `[deleted-post a, live post b]` yields no
row with id "a". -/
theorem c9_deleted_posts_excluded_witness :
    (RedditPrep.process_firsttimehomebuyer_post [] []
        ⟨some "b", 2, some "nice house", some "hello", none, none, none, none⟩).post_id ≠
      (⟨some "a", 1, some "t", some "[deleted]", none, none, none, none⟩ :
        RedditPrep.RawJsonPost).id :=
  c9_deleted_posts_excluded [] [] "FirstTimeHomeBuyer"
    [⟨some "a", 1, some "t", some "[deleted]", none, none, none, none⟩,
     ⟨some "b", 2, some "nice house", some "hello", none, none, none, none⟩]
    ⟨some "a", 1, some "t", some "[deleted]", none, none, none, none⟩
    (by decide) (by decide) (by decide)
    (RedditPrep.process_firsttimehomebuyer_post [] []
      ⟨some "b", 2, some "nice house", some "hello", none, none, none, none⟩)
    (by decide)

namespace Zillow

theorem find?_eq_some_of_unique {α : Type} {p : α → Bool} {l : List α} {x : α}
    (hx : x ∈ l) (hpx : p x = true) (huniq : ∀ y ∈ l, p y = true → y = x) :
    l.find? p = some x := by
  induction l with
  | nil => simp at hx
  | cons a rest ih =>
    by_cases hpa : p a = true
    · have hax : a = x := huniq a (List.mem_cons_self _ _) hpa
      subst hax
      exact List.find?_cons_of_pos _ hpa
    · rw [List.find?_cons_of_neg _ hpa]
      rcases List.mem_cons.mp hx with h | h
      · exact absurd (h ▸ hpx) hpa
      · exact ih h fun y hy hpy => huniq y (List.mem_cons_of_mem _ hy) hpy

/-- Shape of every melted row. -/
theorem mem_process_file {metric_type : String} {dates : List Int} {rows : List WideRow}
    {x : LongRow} (hx : x ∈ process_file metric_type dates rows) :
    ∃ j r v, ∃ hj : j < dates.length, r ∈ rows ∧ r.values.getD j none = some v ∧
      x = ⟨r.region_id, r.region_name, r.region_type, r.state_name, metric_type,
        dates.get ⟨j, hj⟩, v⟩ := by
  simp only [process_file, List.mem_flatMap] at hx
  obtain ⟨⟨j, d⟩, hjd, hinner⟩ := hx
  rw [List.mk_mem_enum_iff_getElem?] at hjd
  have hj : j < dates.length := (List.getElem?_eq_some.mp hjd).1
  have hd : d = dates.get ⟨j, hj⟩ := by
    have h2 := (List.getElem?_eq_some.mp hjd).2
    simp [List.get_eq_getElem, h2]
  rw [List.mem_filterMap] at hinner
  obtain ⟨r, hr, hfr⟩ := hinner
  cases hv : r.values.getD j none with
  | none => rw [hv] at hfr; simp at hfr
  | some v =>
    rw [hv] at hfr
    simp only [Option.some.injEq] at hfr
    exact ⟨j, r, v, hj, hr, hv, by rw [← hfr, hd]⟩

end Zillow

/-- C8: melting a wide table to long form and pivoting back over the
same metric reproduces the original region-by-date value matrix exactly,
with the null cells absent from the reconstruction (the pivot finds no
row for them), given unique date columns and unique region ids. -/
theorem c8_wide_long_roundtrip (metric_type : String) (dates : List Int)
    (rows : List Zillow.WideRow)
    (hdates : dates.Nodup) (hids : (rows.map (fun r => r.region_id)).Nodup) :
    ∀ r ∈ rows, ∀ j, ∀ hj : j < dates.length,
      Zillow.pivot_value (Zillow.process_file metric_type dates rows) r.region_id
        (dates.get ⟨j, hj⟩) = r.values.getD j none := by
  intro r hr j hj
  cases hv : r.values.getD j none with
  | some v =>
    have hL : (⟨r.region_id, r.region_name, r.region_type, r.state_name, metric_type,
        dates.get ⟨j, hj⟩, v⟩ : Zillow.LongRow) ∈
        Zillow.process_file metric_type dates rows := by
      simp only [Zillow.process_file, List.mem_flatMap]
      refine ⟨(j, dates.get ⟨j, hj⟩), ?_, ?_⟩
      · rw [List.mk_mem_enum_iff_getElem?]
        simp [List.get_eq_getElem]
      · rw [List.mem_filterMap]
        exact ⟨r, hr, by rw [hv]⟩
    rw [Zillow.pivot_value, Zillow.find?_eq_some_of_unique hL (by simp)]
    · rfl
    · intro y hy hpy
      obtain ⟨j', r', v', hj', hr', hv', hyeq⟩ := Zillow.mem_process_file hy
      subst hyeq
      simp only [Bool.and_eq_true, decide_eq_true_eq] at hpy
      have hrr : r' = r := List.inj_on_of_nodup_map hids hr' hr hpy.1
      subst hrr
      have hjj : j' = j := by
        have hg : dates.get ⟨j', hj'⟩ = dates.get ⟨j, hj⟩ := hpy.2
        simpa using (hdates.get_inj_iff.mp hg)
      subst hjj
      have hvv : v' = v := by
        rw [hv] at hv'
        exact (Option.some.inj hv').symm
      rw [hvv]
  | none =>
    rw [Zillow.pivot_value, List.find?_eq_none.mpr, Option.map_none']
    intro y hy
    obtain ⟨j', r', v', hj', hr', hv', hyeq⟩ := Zillow.mem_process_file hy
    subst hyeq
    simp only [Bool.and_eq_true, decide_eq_true_eq, not_and]
    intro h1 h2
    have hrr : r' = r := List.inj_on_of_nodup_map hids hr' hr h1
    subst hrr
    have hjj : j' = j := by
      have hg : dates.get ⟨j', hj'⟩ = dates.get ⟨j, hj⟩ := h2
      simpa using (hdates.get_inj_iff.mp hg)
    subst hjj
    rw [hv] at hv'
    simp at hv'


/-- Witness for C8 on a one-region two-date table with one null cell. -/
theorem c8_wide_long_roundtrip_witness :
    Zillow.pivot_value (Zillow.process_file ("m") [10, 20]
        [⟨1, 0, "A", "msa", "TX", [some 5, none]⟩]) 1 10 = some 5 :=
  c8_wide_long_roundtrip ("m") [10, 20] [⟨1, 0, "A", "msa", "TX", [some 5, none]⟩]
    (by decide) (by decide) ⟨1, 0, "A", "msa", "TX", [some 5, none]⟩ (by decide) 0
    (by decide)

namespace TrendsPrep

theorem foldl_min_le : ∀ (l : List DailyRow) (a : Int),
    (l.foldl (fun m s => min m s.date) a ≤ a) ∧
    ∀ r ∈ l, l.foldl (fun m s => min m s.date) a ≤ r.date
  | [], a => ⟨le_refl a, by simp⟩
  | s :: rest, a => by
    simp only [List.foldl_cons]
    have ih := foldl_min_le rest (min a s.date)
    refine ⟨le_trans ih.1 (min_le_left _ _), ?_⟩
    intro r hr
    rcases List.mem_cons.mp hr with h | h
    · subst h
      exact le_trans ih.1 (min_le_right _ _)
    · exact ih.2 r h

theorem le_foldl_max : ∀ (l : List DailyRow) (a : Int),
    (a ≤ l.foldl (fun m s => max m s.date) a) ∧
    ∀ r ∈ l, r.date ≤ l.foldl (fun m s => max m s.date) a
  | [], a => ⟨le_refl a, by simp⟩
  | s :: rest, a => by
    simp only [List.foldl_cons]
    have ih := le_foldl_max rest (max a s.date)
    refine ⟨le_trans (le_max_left _ _) ih.1, ?_⟩
    intro r hr
    rcases List.mem_cons.mp hr with h | h
    · subst h
      exact le_trans (le_max_right _ _) ih.1
    · exact ih.2 r h

theorem min_date_le {rows : List DailyRow} {r : DailyRow} (h : r ∈ rows) :
    min_date rows ≤ r.date := by
  cases rows with
  | nil => simp at h
  | cons s rest =>
    rcases List.mem_cons.mp h with h' | h'
    · exact h' ▸ (foldl_min_le rest s.date).1
    · exact (foldl_min_le rest s.date).2 r h'

theorem le_max_date {rows : List DailyRow} {r : DailyRow} (h : r ∈ rows) :
    r.date ≤ max_date rows := by
  cases rows with
  | nil => simp at h
  | cons s rest =>
    rcases List.mem_cons.mp h with h' | h'
    · exact h' ▸ (le_foldl_max rest s.date).1
    · exact (le_foldl_max rest s.date).2 r h'

theorem bin_end_ge (d : Int) : d ≤ bin_end d := by
  have := Int.emod_nonneg (3 - d) (by norm_num : (7 : Int) ≠ 0)
  simp only [bin_end]
  omega

theorem bin_end_lt (d : Int) : bin_end d < d + 7 := by
  have := Int.emod_lt_of_pos (3 - d) (by norm_num : (0 : Int) < 7)
  simp only [bin_end]
  omega

theorem bin_end_mod (d : Int) : bin_end d % 7 = 3 := by
  simp only [bin_end]
  omega

theorem bin_end_mono {d e : Int} (h : d ≤ e) : bin_end d ≤ bin_end e := by
  simp only [bin_end]
  omega

theorem bin_end_eq_iff {t e : Int} (he : e % 7 = 3) :
    bin_end t = e ↔ e - 7 < t ∧ t ≤ e := by
  simp only [bin_end]
  omega

end TrendsPrep

namespace TrendsPrep

theorem mem_bins_mod {dmin dmax e : Int} (h : e ∈ bins dmin dmax) : e % 7 = 3 := by
  simp only [bins, List.mem_map, List.mem_range] at h
  obtain ⟨i, _, rfl⟩ := h
  have := bin_end_mod dmin
  omega

theorem bin_end_mem_bins {dmin dmax t : Int} (h1 : dmin ≤ t) (h2 : t ≤ dmax) :
    bin_end t ∈ bins dmin dmax := by
  have hmono1 : bin_end dmin ≤ bin_end t := by simp only [bin_end]; omega
  have hmono2 : bin_end t ≤ bin_end dmax := by simp only [bin_end]; omega
  have h7a : (7 : Int) ∣ (bin_end t - bin_end dmin) := by simp only [bin_end]; omega
  have h7b : (7 : Int) ∣ (bin_end dmax - bin_end dmin) := by simp only [bin_end]; omega
  obtain ⟨k, hk⟩ := h7a
  obtain ⟨m, hm⟩ := h7b
  have hdiv : (bin_end dmax - bin_end dmin) / 7 = m := by
    rw [hm]
    exact Int.mul_ediv_cancel_left m (by norm_num)
  have hk0 : (0 : Int) ≤ k := by linarith
  simp only [bins]
  refine List.mem_map.mpr ⟨k.toNat, List.mem_range.mpr ?_, ?_⟩
  · rw [hdiv]
    exact Nat.lt_succ_of_le (Int.toNat_le_toNat (by linarith))
  · rw [Int.toNat_of_nonneg hk0]
    linarith

theorem int_cast_rows_forward {term : String} : ∀ {l : List WeeklyOpt}
    {out : List WeeklyRow}, int_cast_rows term l = some out →
    ∀ wo ∈ l, ∃ q c g, wo.avg = some q ∧ wo.category = some c ∧ wo.region = some g ∧
      (⟨wo.week_start_date, term, c, round_half_even q, g⟩ : WeeklyRow) ∈ out
  | [], _, _, wo, hwo => by simp at hwo
  | w :: rest, out, h, wo, hwo => by
    simp only [int_cast_rows] at h
    split at h
    · next q c g hq hc hg =>
      split at h
      · next ws hws =>
        have hout : out = ⟨w.week_start_date, term, c, round_half_even q, g⟩ :: ws :=
          (Option.some.inj h).symm
        subst hout
        rcases List.mem_cons.mp hwo with h' | h'
        · subst h'
          exact ⟨q, c, g, hq, hc, hg, List.mem_cons_self _ _⟩
        · obtain ⟨q', c', g', hq', hc', hg', hmem⟩ := int_cast_rows_forward hws wo h'
          exact ⟨q', c', g', hq', hc', hg', List.mem_cons_of_mem _ hmem⟩
      · exact absurd h (by simp)
    · exact absurd h (by simp)

theorem int_cast_rows_backward {term : String} : ∀ {l : List WeeklyOpt}
    {out : List WeeklyRow}, int_cast_rows term l = some out →
    ∀ x ∈ out, ∃ wo ∈ l, ∃ q c g, wo.avg = some q ∧ wo.category = some c ∧
      wo.region = some g ∧
      x = ⟨wo.week_start_date, term, c, round_half_even q, g⟩
  | [], out, h, x, hx => by
    have : out = [] := (Option.some.inj (by simpa [int_cast_rows] using h)).symm
    subst this
    simp at hx
  | w :: rest, out, h, x, hx => by
    simp only [int_cast_rows] at h
    split at h
    · next q c g hq hc hg =>
      split at h
      · next ws hws =>
        have hout : out = ⟨w.week_start_date, term, c, round_half_even q, g⟩ :: ws :=
          (Option.some.inj h).symm
        subst hout
        rcases List.mem_cons.mp hx with h' | h'
        · exact ⟨w, List.mem_cons_self _ _, q, c, g, hq, hc, hg, h'⟩
        · obtain ⟨wo, hwo, rest'⟩ := int_cast_rows_backward hws x h'
          exact ⟨wo, List.mem_cons_of_mem _ hwo, rest'⟩
      · exact absurd h (by simp)
    · exact absurd h (by simp)

end TrendsPrep

namespace TrendsPrep

theorem round_half_even_nearest (q : ℚ) : |q - (round_half_even q : ℚ)| ≤ 1 / 2 := by
  have h1 : (⌊q⌋ : ℚ) ≤ q := Int.floor_le q
  have h2 : q < ⌊q⌋ + 1 := Int.lt_floor_add_one q
  simp only [round_half_even]
  split
  · next hlt =>
    rw [abs_le]
    constructor <;> linarith
  · next hge =>
    rw [not_lt] at hge
    split
    · next hgt =>
      push_cast
      rw [abs_le]
      constructor <;> linarith
    · next hle =>
      rw [not_lt] at hle
      split <;> (push_cast; rw [abs_le]; constructor <;> linarith)

/-- Every aggregated weekly (pre-cast) row is the bin row of some bin
boundary in the span. -/
theorem mem_resample_bins {rows : List DailyRow} {wo : WeeklyOpt}
    (h : wo ∈ resample_bins rows) :
    ∃ e ∈ bins (min_date rows) (max_date rows),
      wo = { week_start_date := e - 7
             avg := if (rows.filter (fun r => e - 7 < r.date ∧ r.date ≤ e)).isEmpty then
                 none
               else some (mean_score (rows.filter (fun r => e - 7 < r.date ∧ r.date ≤ e)))
             category := (rows.filter
                 (fun r => e - 7 < r.date ∧ r.date ≤ e)).head?.map (fun r => r.category)
             region := (rows.filter
                 (fun r => e - 7 < r.date ∧ r.date ≤ e)).head?.map (fun r => r.region) } := by
  simp only [resample_bins, List.mem_map] at h
  obtain ⟨e, he, rfl⟩ := h
  exact ⟨e, he, rfl⟩

theorem resample_bins_mem {rows : List DailyRow} {e : Int}
    (he : e ∈ bins (min_date rows) (max_date rows)) :
    ({ week_start_date := e - 7
       avg := if (rows.filter (fun r => e - 7 < r.date ∧ r.date ≤ e)).isEmpty then none
         else some (mean_score (rows.filter (fun r => e - 7 < r.date ∧ r.date ≤ e)))
       category := (rows.filter
           (fun r => e - 7 < r.date ∧ r.date ≤ e)).head?.map (fun r => r.category)
       region := (rows.filter
           (fun r => e - 7 < r.date ∧ r.date ≤ e)).head?.map (fun r => r.region) } :
      WeeklyOpt) ∈ resample_bins rows :=
  List.mem_map_of_mem _ he

theorem window_filter_congr (rows : List DailyRow) (e : Int) :
    rows.filter (fun r => e - 7 < r.date ∧ r.date ≤ e - 7 + 7) =
      rows.filter (fun r => e - 7 < r.date ∧ r.date ≤ e) := by
  apply List.filter_congr
  intro x _
  simp only [decide_eq_decide]
  omega

end TrendsPrep

open TrendsPrep in
/-- C6: on a per-term daily series the weekly resampling (whenever it
succeeds, i.e. no weekly bin in the span is empty) produces rows whose
label is a Sunday and is the left boundary of the right-closed bucket
`(label, label+7]`; every daily row falls into some output bucket;
`avg_interest_score` is the bucket's mean rounded half-to-even (hence a
nearest integer: it differs from the exact mean by at most 1/2); and the
constant `category`/`region` fields are carried forward unchanged. -/
theorem c6_weekly_resample (term cat reg : String) (rows : List DailyRow)
    (hconst : ∀ r ∈ rows, r.category = cat ∧ r.region = reg)
    (out : List WeeklyRow)
    (hout : resample_weekly_term term rows = some out) :
    (∀ w ∈ out,
      w.week_start_date % 7 = 3 ∧
      rows.filter (fun r => w.week_start_date < r.date ∧
        r.date ≤ w.week_start_date + 7) ≠ [] ∧
      w.avg_interest_score = round_half_even (mean_score (rows.filter
        (fun r => w.week_start_date < r.date ∧ r.date ≤ w.week_start_date + 7))) ∧
      |mean_score (rows.filter (fun r => w.week_start_date < r.date ∧
          r.date ≤ w.week_start_date + 7)) - (w.avg_interest_score : ℚ)| ≤ 1 / 2 ∧
      w.search_term = term ∧ w.category = cat ∧ w.region = reg) ∧
    (∀ r ∈ rows, ∃ w ∈ out,
      w.week_start_date < r.date ∧ r.date ≤ w.week_start_date + 7) := by
  constructor
  · intro w hw
    obtain ⟨wo, hwo, q, c, g, hq, hc, hg, rfl⟩ :=
      int_cast_rows_backward hout w hw
    obtain ⟨e, he, rfl⟩ := mem_resample_bins hwo
    simp only at hq hc hg
    have hmod : e % 7 = 3 := mem_bins_mod he
    rw [window_filter_congr rows e]
    split at hq
    · exact absurd hq (by simp)
    · next hne =>
      have hqe : q = mean_score (rows.filter (fun r => e - 7 < r.date ∧ r.date ≤ e)) :=
        (Option.some.inj hq).symm
      obtain ⟨h0, hh0, hc0⟩ := Option.map_eq_some'.mp hc
      have hh0mem : h0 ∈ rows.filter (fun r => e - 7 < r.date ∧ r.date ≤ e) := by
        obtain ⟨ys, hys⟩ := List.head?_eq_some_iff.mp hh0
        rw [hys]
        exact List.mem_cons_self _ _
      have hh0rows : h0 ∈ rows := List.mem_of_mem_filter hh0mem
      obtain ⟨h1, hh1, hg0⟩ := Option.map_eq_some'.mp hg
      have hh1rows : h1 ∈ rows :=
        List.mem_of_mem_filter (by
          obtain ⟨ys, hys⟩ := List.head?_eq_some_iff.mp hh1
          rw [hys]
          exact List.mem_cons_self _ _)
      refine ⟨?_, ?_, by rw [hqe], ?_, rfl, ?_, ?_⟩
      · show (e - 7) % 7 = 3
        omega
      · intro hnil
        rw [hnil] at hne
        exact hne rfl
      · rw [hqe]
        exact round_half_even_nearest _
      · rw [← hc0, (hconst h0 hh0rows).1]
      · rw [← hg0, (hconst h1 hh1rows).2]
  · intro r hr
    have he : bin_end r.date ∈ bins (min_date rows) (max_date rows) :=
      bin_end_mem_bins (min_date_le hr) (le_max_date hr)
    have hwo := @resample_bins_mem rows (bin_end r.date) he
    obtain ⟨q, c, g, hq, hc, hg, hmem⟩ := int_cast_rows_forward hout _ hwo
    refine ⟨_, hmem, ?_, ?_⟩
    · show bin_end r.date - 7 < r.date
      have := bin_end_lt r.date
      omega
    · show r.date ≤ bin_end r.date - 7 + 7
      have := bin_end_ge r.date
      omega

namespace TrendsPrep

/-- The average column of every finished weekly row is the rounded mean
of its bucket. -/
theorem resample_avg_spec {term : String} {rows : List DailyRow} {out : List WeeklyRow}
    (hout : resample_weekly_term term rows = some out) :
    ∀ w ∈ out, w.avg_interest_score = round_half_even (mean_score (rows.filter
      (fun r => w.week_start_date < r.date ∧ r.date ≤ w.week_start_date + 7))) := by
  intro w hw
  obtain ⟨wo, hwo, q, c, g, hq, hc, hg, rfl⟩ := int_cast_rows_backward hout w hw
  obtain ⟨e, he, rfl⟩ := mem_resample_bins hwo
  simp only at hq
  rw [window_filter_congr rows e]
  split at hq
  · exact absurd hq (by simp)
  · exact congrArg round_half_even (Option.some.inj hq).symm

end TrendsPrep

open TrendsPrep in
/-- C10: daily rows with a missing `interest_score` are zero-filled by
`process_term` before the weekly aggregation, so each weekly average is
taken over ALL the bucket's rows with missing scores counted as zeros
(not excluded from the mean). -/
theorem c10_missing_scores_zero_filled (raws : List RawRow)
    (term cat reg : String) (out : List WeeklyRow)
    (hout : resample_weekly_term term (process_term raws term cat reg) = some out) :
    (∀ d ∈ process_term raws term cat reg,
      ∃ raw ∈ raws, d.date = raw.date ∧ d.interest_score = raw.interest_score.getD 0) ∧
    (∀ w ∈ out,
      w.avg_interest_score = round_half_even
        ((((raws.filter (fun r => w.week_start_date < r.date ∧
              r.date ≤ w.week_start_date + 7)).map
            (fun r => ((r.interest_score.getD 0 : Int) : ℚ))).sum) /
          (((raws.filter (fun r => w.week_start_date < r.date ∧
              r.date ≤ w.week_start_date + 7)).length : ℚ)))) := by
  constructor
  · intro d hd
    have hd' : d ∈ raws.map (fun r =>
        DailyRow.mk r.date term cat (r.interest_score.getD 0) reg) :=
      (List.mem_insertionSort dailyLE).mp hd
    obtain ⟨raw, hraw, rfl⟩ := List.mem_map.mp hd'
    exact ⟨raw, hraw, rfl, rfl⟩
  · intro w hw
    rw [resample_avg_spec hout w hw]
    congr 1
    have hperm : List.Perm
        ((process_term raws term cat reg).filter
          (fun r => w.week_start_date < r.date ∧ r.date ≤ w.week_start_date + 7))
        ((raws.map (fun r =>
            DailyRow.mk r.date term cat (r.interest_score.getD 0) reg)).filter
          (fun r => w.week_start_date < r.date ∧ r.date ≤ w.week_start_date + 7)) :=
      (List.perm_insertionSort dailyLE _).filter _
    have hfm : ((raws.map (fun r =>
          DailyRow.mk r.date term cat (r.interest_score.getD 0) reg)).filter
          (fun r => w.week_start_date < r.date ∧ r.date ≤ w.week_start_date + 7)) =
        ((raws.filter (fun r => w.week_start_date < r.date ∧
            r.date ≤ w.week_start_date + 7)).map
          (fun r => DailyRow.mk r.date term cat (r.interest_score.getD 0) reg)) := by
      rw [List.filter_map]
      exact congrArg _ (List.filter_congr (fun x _ => rfl))
    rw [mean_score, hperm.map (fun r => (r.interest_score : ℚ)) |>.sum_eq, hperm.length_eq,
      hfm, List.map_map, List.length_map]
    rfl


/-- Witness for C6 at the spec's example: seven daily scores 10..70 on
Monday 1970-01-05 .. Sunday 1970-01-11 (days 4..10) form one bucket
labelled day 3 (Sunday 1970-01-04) with average 40. -/
theorem c6_weekly_resample_witness :
    (40 : Int) = TrendsPrep.round_half_even (TrendsPrep.mean_score
      (([⟨4, "t", "c", 10, "US"⟩, ⟨5, "t", "c", 20, "US"⟩, ⟨6, "t", "c", 30, "US"⟩,
         ⟨7, "t", "c", 40, "US"⟩, ⟨8, "t", "c", 50, "US"⟩, ⟨9, "t", "c", 60, "US"⟩,
         ⟨10, "t", "c", 70, "US"⟩] : List TrendsPrep.DailyRow).filter
        (fun r => (3 : Int) < r.date ∧ r.date ≤ 3 + 7))) :=
  ((c6_weekly_resample "t" "c" "US"
      [⟨4, "t", "c", 10, "US"⟩, ⟨5, "t", "c", 20, "US"⟩, ⟨6, "t", "c", 30, "US"⟩,
       ⟨7, "t", "c", 40, "US"⟩, ⟨8, "t", "c", 50, "US"⟩, ⟨9, "t", "c", 60, "US"⟩,
       ⟨10, "t", "c", 70, "US"⟩] (by decide) [⟨3, "t", "c", 40, "US"⟩] (by decide)).1
    ⟨3, "t", "c", 40, "US"⟩ (by decide)).2.2.1

/-- Witness for C10: Monday's score 10 and Tuesday's missing score
(zero-filled) average to 5. -/
theorem c10_missing_scores_zero_filled_witness :
    (5 : Int) = TrendsPrep.round_half_even
      (((([⟨4, some 10⟩, ⟨5, none⟩] : List TrendsPrep.RawRow).filter
          (fun r => (3 : Int) < r.date ∧ r.date ≤ 3 + 7)).map
        (fun r => ((r.interest_score.getD 0 : Int) : ℚ))).sum /
       ((([⟨4, some 10⟩, ⟨5, none⟩] : List TrendsPrep.RawRow).filter
          (fun r => (3 : Int) < r.date ∧ r.date ≤ 3 + 7)).length : ℚ)) :=
  (c10_missing_scores_zero_filled [⟨4, some 10⟩, ⟨5, none⟩] "t" "c" "US"
      [⟨3, "t", "c", 5, "US"⟩] (by decide)).2 ⟨3, "t", "c", 5, "US"⟩ (by decide)

end
